import Mathlib

/-!
Verification development for `aliveAgent.js`, a keep-alive connection-pool
Agent.  The Agent keys all of its bookkeeping by an endpoint name
`host:port[:localAddress]` and keeps, per name:

* `sockets name`     : the active sockets (counted against `maxSockets`),
* `idleSockets name` : parked keep-alive sockets together with their expiry
  instant `validTill`,
* `requests name`    : the FIFO queue of requests waiting for capacity.

The JavaScript objects used as maps distinguish an *absent* key from a key
bound to an empty array (`delete this.sockets[name]` vs `[]`), so the maps
are modelled as `String → Option (List _)`.  Sockets are identified by the
order of their creation (`nextSid` counts `createConnection` calls); request
objects are identified by arbitrary numeric ids.  `req.onSocket(socket)`
calls are recorded in `assignLog` in call order.  The ambient clock
(`+new Date()`) is passed explicitly as `now` to every operation that reads
it.  The per-socket flags `destroyed`, `closedF` (its `close` event has
fired) and `agentRemoved` (its `agentRemove` event detached the listeners),
and `sockName` (the name captured by the listener closures at creation),
model the socket-side state the Agent's handlers consult.  Each operation
is written as a single record update whose fields are computed by map-level
helper functions that mirror the source branch by branch.
-/

/-- Lookup in a JS-object map: an absent key reads as the empty list wherever
the code only consumes the array. -/
def getL {α : Type} (o : Option (List α)) : List α := o.getD []

/-- Pointwise update of a JS-object map (assignment or `delete`). -/
def upd {α : Type} (m : String → α) (k : String) (v : α) : String → α :=
  fun n => if n = k then v else m n

@[simp] theorem getL_none {α : Type} : getL (none : Option (List α)) = [] := rfl

@[simp] theorem getL_some {α : Type} (l : List α) : getL (some l) = l := rfl

@[simp] theorem upd_same {α : Type} (m : String → α) (k : String) (v : α) :
    upd m k v k = v := by simp [upd]

@[simp] theorem upd_other {α : Type} (m : String → α) (k : String) (v : α)
    (n : String) (h : n ≠ k) : upd m k v n = m n := by simp [upd, h]

/-- Ensure a key is present: `if (!this.m[name]) this.m[name] = [];`. -/
def ensureKey {α : Type} (m : String → Option (List α)) (name : String) :
    String → Option (List α) :=
  match m name with
  | none => upd m name (some [])
  | some _ => m

/-- Append one element to a key's array, creating it when absent (the
`if (!this.m[name]) this.m[name] = []; this.m[name].push(v)` pattern). -/
def pushVal {α : Type} (m : String → Option (List α)) (name : String) (v : α) :
    String → Option (List α) :=
  upd m name (some (getL (m name) ++ [v]))

/-- State of one `Agent` instance.  Fields `requests`, `sockets`,
`idleSockets`, `maxSockets`, `keepAlive` mirror the constructor; an idle
entry is the pair `(socket, validTill)` of `putIdleSocket`.  The remaining
fields model socket identity and socket-side flags as described above. -/
structure AgentState where
  maxSockets : Nat
  keepAlive : Nat
  requests : String → Option (List Nat)
  sockets : String → Option (List Nat)
  idleSockets : String → Option (List (Nat × Nat))
  validTimer : Bool
  destroyed : Nat → Bool
  closedF : Nat → Bool
  agentRemoved : Nat → Bool
  sockName : Nat → String
  nextSid : Nat
  assignLog : List (Nat × Nat)

/-- Active sockets for a name (`this.sockets[name]`, reading absent as empty). -/
def activeOf (st : AgentState) (name : String) : List Nat := getL (st.sockets name)

/-- Idle entries for a name (`this.idleSockets[name]`). -/
def idleOf (st : AgentState) (name : String) : List (Nat × Nat) := getL (st.idleSockets name)

/-- Socket ids of the idle entries for a name. -/
def idleSidsOf (st : AgentState) (name : String) : List Nat := (idleOf st name).map Prod.fst

/-- Waiting requests for a name (`this.requests[name]`). -/
def queueOf (st : AgentState) (name : String) : List Nat := getL (st.requests name)

/-- Request ids in assignment order (the sequence of `req.onSocket` calls). -/
def logF (st : AgentState) : List Nat := st.assignLog.map Prod.fst

/-- Expiry test of `validateIdle`: an entry is expired iff `validTill < now`. -/
def isExpired (now : Nat) (e : Nat × Nat) : Bool := decide (e.2 < now)

/-- Map effect of `Agent.prototype.removeFromSockets`: erase the first
occurrence of `s` from `this.sockets[name]` if present (`indexOf`/`splice`),
deleting the key when the array becomes empty. -/
def rmSock (m : String → Option (List Nat)) (s : Nat) (name : String) :
    String → Option (List Nat) :=
  match m name with
  | none => m
  | some l =>
    if s ∈ l then
      if (l.erase s).isEmpty then upd m name none else upd m name (some (l.erase s))
    else m

/-- `Agent.prototype.removeFromSockets`. -/
def removeFromSockets (st : AgentState) (s : Nat) (name : String) : AgentState :=
  { st with sockets := rmSock st.sockets s name }

/-- Map effect of `Agent.prototype.removeFromIdleSockets`: erase the first
idle entry whose socket is `s` (`some` finds the index, then `splice`),
deleting the key when the array becomes empty. -/
def rmIdle (m : String → Option (List (Nat × Nat))) (s : Nat) (name : String) :
    String → Option (List (Nat × Nat)) :=
  match m name with
  | none => m
  | some l =>
    if l.any (fun e => e.1 == s) then
      if (l.eraseP (fun e => e.1 == s)).isEmpty then upd m name none
      else upd m name (some (l.eraseP (fun e => e.1 == s)))
    else m

/-- `Agent.prototype.removeFromIdleSockets`. -/
def removeFromIdleSockets (st : AgentState) (s : Nat) (name : String) : AgentState :=
  { st with idleSockets := rmIdle st.idleSockets s name }

/-- `Agent.prototype.putIdleSocket`: append `(socket, now + keepAlive)` to
`this.idleSockets[name]` and run `setupValidator`, whose only effect on the
pool state is that a validation timer is pending afterwards. -/
def putIdleSocket (st : AgentState) (s : Nat) (name : String) (now : Nat) : AgentState :=
  { st with
    idleSockets := pushVal st.idleSockets name (s, now + st.keepAlive)
    validTimer := true }

/-- Map effect of `Agent.prototype.validateIdle` on `idleSockets`: splice off
the expired prefix (the `some` scan stops at the first non-expired entry;
`count` is the length of the `takeWhile` prefix, the remainder the
`dropWhile` suffix), deleting the key if the array became empty.  Nothing
happens when `count` is `0`. -/
def vIdleMap (m : String → Option (List (Nat × Nat))) (name : String) (now : Nat) :
    String → Option (List (Nat × Nat)) :=
  match m name with
  | none => m
  | some l =>
    if 0 < (l.takeWhile (isExpired now)).length then
      if (l.dropWhile (isExpired now)).isEmpty then upd m name none
      else upd m name (some (l.dropWhile (isExpired now)))
    else m

/-- Flag effect of `validateIdle`: each spliced entry's socket is
`destroy()`ed. -/
def vIdleKill (m : String → Option (List (Nat × Nat))) (d : Nat → Bool)
    (name : String) (now : Nat) : Nat → Bool :=
  match m name with
  | none => d
  | some l =>
    fun x => if (l.takeWhile (isExpired now)).any (fun e => e.1 == x) then true else d x

/-- Return value of `validateIdle`: `sockets.length > 0` after the splice (a
boolean).  The key is present at every call site in the source. -/
def vIdleBool (o : Option (List (Nat × Nat))) (now : Nat) : Bool :=
  match o with
  | none => false
  | some l => !(l.dropWhile (isExpired now)).isEmpty

/-- `Agent.prototype.validateIdle`. -/
def validateIdle (st : AgentState) (name : String) (now : Nat) : AgentState × Bool :=
  ({ st with
      idleSockets := vIdleMap st.idleSockets name now
      destroyed := vIdleKill st.idleSockets st.destroyed name now },
   vIdleBool (st.idleSockets name) now)

/-- The socket `Agent.prototype.findIdleSocket` returns: `null` when the key
is absent or `validateIdle` leaves nothing, else the first remaining idle
entry's socket (`shift`). -/
def fisSid (m : String → Option (List (Nat × Nat))) (name : String) (now : Nat) :
    Option Nat :=
  match m name with
  | none => none
  | some l =>
    match l.dropWhile (isExpired now) with
    | [] => none
    | e :: _ => some e.1

/-- `idleSockets` after `findIdleSocket`: the `validateIdle` result with the
shifted entry removed; the array stays behind, possibly empty. -/
def fisIdleMap (m : String → Option (List (Nat × Nat))) (name : String) (now : Nat) :
    String → Option (List (Nat × Nat)) :=
  match m name with
  | none => m
  | some l =>
    match l.dropWhile (isExpired now) with
    | [] => vIdleMap m name now
    | _ :: t => upd m name (some t)

/-- `sockets` after `findIdleSocket`: the shifted socket, if any, is pushed
onto `this.sockets[name]` (created when absent). -/
def fisSockMap (ms : String → Option (List Nat)) (mi : String → Option (List (Nat × Nat)))
    (name : String) (now : Nat) : String → Option (List Nat) :=
  match fisSid mi name now with
  | none => ms
  | some sid => pushVal ms name sid

/-- `Agent.prototype.findIdleSocket`. -/
def findIdleSocket (st : AgentState) (name : String) (now : Nat) : AgentState × Option Nat :=
  ({ st with
      idleSockets := fisIdleMap st.idleSockets name now
      destroyed := vIdleKill st.idleSockets st.destroyed name now
      sockets := fisSockMap st.sockets st.idleSockets name now },
   fisSid st.idleSockets name now)

/-- `self.createConnection(options)` from inside `findOrCreateSocket`: a new
socket gets the next fresh id; it starts neither destroyed nor closed nor
removed, and its `free`/`close`/`agentRemove` listeners capture `name`. -/
def createConnection (st : AgentState) (name : String) : AgentState × Nat :=
  let sid := st.nextSid
  ({ st with
      nextSid := sid + 1
      sockName := fun x => if x = sid then name else st.sockName x
      destroyed := fun x => if x = sid then false else st.destroyed x
      closedF := fun x => if x = sid then false else st.closedF x
      agentRemoved := fun x => if x = sid then false else st.agentRemoved x }, sid)

/-- `Agent.prototype.findOrCreateSocket`: reuse an idle socket when
`findIdleSocket` yields one; otherwise create a connection (the
options/servername computation has no pool effect and is omitted) and push
it onto `this.sockets[name]`. -/
def findOrCreateSocket (st : AgentState) (name : String) (now : Nat) : AgentState × Nat :=
  let fi := findIdleSocket st name now
  match fi.2 with
  | some sid => (fi.1, sid)
  | none =>
    let c := createConnection fi.1 name
    ({ c.1 with sockets := pushVal c.1.sockets name c.2 }, c.2)

/-- The Agent's `'free'` listener: when the socket is not destroyed and
requests are waiting under `name`, shift the head request and assign the
socket to it (`req.onSocket(socket)`, recorded in the log), deleting the
queue key if it became empty; otherwise remove the socket from the active
set and park it idle. -/
def onFreeEvent (st : AgentState) (name : String) (s : Nat) (now : Nat) : AgentState :=
  match st.destroyed s, st.requests name with
  | false, some (r :: rest) =>
    { st with
      assignLog := st.assignLog ++ [(r, s)]
      requests := upd st.requests name (if rest.isEmpty then none else some rest) }
  | _, _ => putIdleSocket (removeFromSockets st s name) s name now

/-- `Agent.prototype.removeSocket`: detach `s` from both the active set and
the idle list; if requests are waiting under `name`, obtain a socket via
`findOrCreateSocket` (the head request is peeked only as a naming hint) and
`emit('free')` on it, which runs the socket's `onFree` listener and hence
the Agent's `'free'` handler with the same `name`. -/
def removeSocket (st : AgentState) (s : Nat) (name : String) (now : Nat) : AgentState :=
  let st2 := removeFromIdleSockets (removeFromSockets st s name) s name
  match st2.requests name with
  | some (_ :: _) =>
    let fc := findOrCreateSocket st2 name now
    onFreeEvent fc.1 name fc.2 now
  | _ => st2

/-- `Agent.prototype.addRequest` for a fixed endpoint name: ensure
`this.sockets[name]` exists; under `maxSockets`, assign
`findOrCreateSocket`'s result to the request; otherwise append the request
to the wait queue. -/
def addRequest (st : AgentState) (req : Nat) (name : String) (now : Nat) : AgentState :=
  let st0 := { st with sockets := ensureKey st.sockets name }
  if (getL (st0.sockets name)).length < st0.maxSockets then
    let fc := findOrCreateSocket st0 name now
    { fc.1 with assignLog := fc.1.assignLog ++ [(req, fc.2)] }
  else
    { st0 with requests := pushVal st0.requests name req }

/-- The socket's `onClose` listener: `removeSocket`; the model also records
that the `close` event has fired. -/
def closeEvent (st : AgentState) (s : Nat) (name : String) (now : Nat) : AgentState :=
  let st1 := removeSocket st s name now
  { st1 with closedF := fun x => if x = s then true else st1.closedF x }

/-- The socket's `onRemove` listener (`agentRemove` event, e.g. HTTP
upgrade): `removeSocket`, then detach the three listeners. -/
def agentRemove (st : AgentState) (s : Nat) (name : String) (now : Nat) : AgentState :=
  let st1 := removeSocket st s name now
  { st1 with agentRemoved := fun x => if x = s then true else st1.agentRemoved x }

/-- One key's share of a validation-timer tick: the `setupValidator`
callback runs `validateIdle(name)` for each present key; this is its effect
on `name` (timer bookkeeping is modelled with `ReaperState` below). -/
def sweepKey (st : AgentState) (name : String) (now : Nat) : AgentState :=
  (validateIdle st name now).1

/-- External `socket.destroy()` (an error, a timeout, ...): the socket's
`destroyed` flag becomes true; its `close` event fires separately, later. -/
def destroySock (st : AgentState) (s : Nat) : AgentState :=
  { st with destroyed := fun x => if x = s then true else st.destroyed x }

/-- A freshly constructed Agent: all maps empty, no sockets yet. -/
def initAgent (mx ka : Nat) : AgentState :=
  { maxSockets := mx
    keepAlive := ka
    requests := fun _ => none
    sockets := fun _ => none
    idleSockets := fun _ => none
    validTimer := false
    destroyed := fun _ => false
    closedF := fun _ => false
    agentRemoved := fun _ => false
    sockName := fun _ => ""
    nextSid := 0
    assignLog := [] }

/-- `options.maxSockets || Agent.defaultMaxSockets`: JS `||` treats `0` as
absent. -/
def orDefault (v : Option Nat) (d : Nat) : Nat :=
  match v with
  | none => d
  | some 0 => d
  | some (k + 1) => k + 1

def defaultMaxSockets : Nat := 5

def defaultKeepAlive : Nat := 10 * 1000

/-- `new Agent(options)` with optional `maxSockets` / `keepAlive`. -/
def mkAgent (mx ka : Option Nat) : AgentState :=
  initAgent (orDefault mx defaultMaxSockets) (orDefault ka defaultKeepAlive)

/-- A request id never seen by this Agent: not waiting anywhere and never
assigned.  Distinct `ClientRequest` objects admitted by `addRequest` are
distinct, which this guard expresses for the id model. -/
def ReqFresh (st : AgentState) (req : Nat) : Prop :=
  req ∉ logF st ∧ ∀ name, req ∉ queueOf st name

/-- Events the pool reacts to, with the conditions under which the real
program can deliver them: `addRequest` for a never-seen request; a `free`
event for a socket currently in the active set whose listeners are attached
(only sockets handed to a request emit `free`); a `close` event for any
created socket whose `onClose` listener is still attached and whose `close`
has not fired yet — closing is asynchronous, so it may reach the Agent after
the socket left the pool; an `agentRemove` event likewise; a clock tick's
sweep of one present key; and an external `destroy` of a created socket. -/
inductive Step : AgentState → AgentState → Prop where
  | add (st : AgentState) (req : Nat) (name : String) (now : Nat)
      (hfresh : ReqFresh st req) :
      Step st (addRequest st req name now)
  | freed (st : AgentState) (s : Nat) (name : String) (now : Nat)
      (hact : s ∈ activeOf st name)
      (hcl : st.closedF s = false) (hrm : st.agentRemoved s = false) :
      Step st (onFreeEvent st name s now)
  | closed (st : AgentState) (s : Nat) (name : String) (now : Nat)
      (hnm : st.sockName s = name) (hlt : s < st.nextSid)
      (hcl : st.closedF s = false) (hrm : st.agentRemoved s = false) :
      Step st (closeEvent st s name now)
  | evicted (st : AgentState) (s : Nat) (name : String) (now : Nat)
      (hnm : st.sockName s = name) (hlt : s < st.nextSid)
      (hrm : st.agentRemoved s = false) :
      Step st (agentRemove st s name now)
  | sweep (st : AgentState) (name : String) (now : Nat)
      (hp : st.idleSockets name ≠ none) :
      Step st (sweepKey st name now)
  | destroy (st : AgentState) (s : Nat) (hlt : s < st.nextSid) :
      Step st (destroySock st s)

/-- Reachability under any interleaving of the above events. -/
def Reachable (st st' : AgentState) : Prop := Relation.ReflTransGen Step st st'

/-- The same events, but `close` and `agentRemove` restricted to sockets the
pool still tracks (in the active set or the idle list of their name), ruling
out the stale close of a socket the expiry sweep already retired. -/
inductive CStep : AgentState → AgentState → Prop where
  | add (st : AgentState) (req : Nat) (name : String) (now : Nat)
      (hfresh : ReqFresh st req) :
      CStep st (addRequest st req name now)
  | freed (st : AgentState) (s : Nat) (name : String) (now : Nat)
      (hact : s ∈ activeOf st name)
      (hcl : st.closedF s = false) (hrm : st.agentRemoved s = false) :
      CStep st (onFreeEvent st name s now)
  | closed (st : AgentState) (s : Nat) (name : String) (now : Nat)
      (hnm : st.sockName s = name) (hlt : s < st.nextSid)
      (htr : s ∈ activeOf st name ∨ s ∈ idleSidsOf st name)
      (hcl : st.closedF s = false) (hrm : st.agentRemoved s = false) :
      CStep st (closeEvent st s name now)
  | evicted (st : AgentState) (s : Nat) (name : String) (now : Nat)
      (hnm : st.sockName s = name) (hlt : s < st.nextSid)
      (htr : s ∈ activeOf st name ∨ s ∈ idleSidsOf st name)
      (hrm : st.agentRemoved s = false) :
      CStep st (agentRemove st s name now)
  | sweep (st : AgentState) (name : String) (now : Nat)
      (hp : st.idleSockets name ≠ none) :
      CStep st (sweepKey st name now)
  | destroy (st : AgentState) (s : Nat) (hlt : s < st.nextSid) :
      CStep st (destroySock st s)

/-- Reachability under tracked-socket close/evict events. -/
def CReachable (st st' : AgentState) : Prop := Relation.ReflTransGen CStep st st'

/-! ### Generic list facts used throughout -/

theorem erasePSock_map_fst (l : List (Nat × Nat)) (s : Nat) :
    (l.eraseP (fun e => e.1 == s)).map Prod.fst = (l.map Prod.fst).erase s := by
  induction l with
  | nil => rfl
  | cons e t ih =>
    by_cases h : e.1 = s
    · simp [List.eraseP_cons, List.erase_cons, h]
    · simp [List.eraseP_cons, List.erase_cons, h, ih]

theorem takeWhile_length_add_dropWhile_length {α : Type} (p : α → Bool) (l : List α) :
    (l.takeWhile p).length + (l.dropWhile p).length = l.length := by
  conv_rhs => rw [← List.takeWhile_append_dropWhile p l]
  rw [List.length_append]

theorem dropWhile_isEmpty_iff {α : Type} (p : α → Bool) (l : List α) :
    (l.dropWhile p).isEmpty = true ↔ ∀ x ∈ l, p x = true := by
  induction l with
  | nil => simp
  | cons a t ih =>
    by_cases h : p a
    · simp [List.dropWhile_cons, h, ih]
    · simp [List.dropWhile_cons, h]

theorem append_singleton_erase {α : Type} [DecidableEq α] (l : List α) (x : α) (h : x ∉ l) :
    (l ++ [x]).erase x = l := by
  rw [List.erase_append_right _ h]; simp

/-! ### Effects of the map-level helpers -/

theorem ensureKey_other {α : Type} (m : String → Option (List α)) (name n : String)
    (h : n ≠ name) : ensureKey m name n = m n := by
  unfold ensureKey; cases hm : m name <;> simp [h]

theorem getL_ensureKey {α : Type} (m : String → Option (List α)) (name : String) :
    getL (ensureKey m name name) = getL (m name) := by
  unfold ensureKey; cases hm : m name <;> simp [hm]

theorem getL_pushVal {α : Type} (m : String → Option (List α)) (name : String) (v : α) :
    getL (pushVal m name v name) = getL (m name) ++ [v] := by
  unfold pushVal; simp

theorem pushVal_other {α : Type} (m : String → Option (List α)) (name : String) (v : α)
    (n : String) (h : n ≠ name) : pushVal m name v n = m n := by
  unfold pushVal; simp [h]

theorem getL_rmSock (m : String → Option (List Nat)) (s : Nat) (name : String) :
    getL (rmSock m s name name) = (getL (m name)).erase s := by
  unfold rmSock
  cases hm : m name with
  | none => simp [hm]
  | some l =>
    by_cases hs : s ∈ l
    · by_cases he : (l.erase s).isEmpty
      · simp [hm, hs, he, List.isEmpty_iff.mp he]
      · simp [hm, hs, he]
    · simp [hm, hs, List.erase_of_not_mem hs]

theorem rmSock_other (m : String → Option (List Nat)) (s : Nat) (name n : String)
    (h : n ≠ name) : rmSock m s name n = m n := by
  unfold rmSock
  cases hm : m name with
  | none => rfl
  | some l =>
    by_cases hs : s ∈ l
    · by_cases he : (l.erase s).isEmpty <;> simp [hs, he, h]
    · simp [hs]

theorem getL_rmIdle (m : String → Option (List (Nat × Nat))) (s : Nat) (name : String) :
    getL (rmIdle m s name name) = (getL (m name)).eraseP (fun e => e.1 == s) := by
  unfold rmIdle
  cases hm : m name with
  | none => simp [hm]
  | some l =>
    by_cases hs : l.any (fun e => e.1 == s)
    · by_cases he : (l.eraseP (fun e => e.1 == s)).isEmpty
      · simp [hm, hs, he, List.isEmpty_iff.mp he]
      · simp [hm, hs, he]
    · have : l.eraseP (fun e => e.1 == s) = l := by
        apply List.eraseP_of_forall_not
        intro a ha hc
        exact hs (List.any_eq_true.mpr ⟨a, ha, hc⟩)
      simp [hm, hs, this]

theorem rmIdle_other (m : String → Option (List (Nat × Nat))) (s : Nat) (name n : String)
    (h : n ≠ name) : rmIdle m s name n = m n := by
  unfold rmIdle
  cases hm : m name with
  | none => rfl
  | some l =>
    by_cases hs : l.any (fun e => e.1 == s)
    · by_cases he : (l.eraseP (fun e => e.1 == s)).isEmpty <;> simp [hs, he, h]
    · simp [hs]

theorem getL_vIdleMap (m : String → Option (List (Nat × Nat))) (name : String) (now : Nat) :
    getL (vIdleMap m name now name) = (getL (m name)).dropWhile (isExpired now) := by
  unfold vIdleMap
  cases hm : m name with
  | none => simp [hm]
  | some l =>
    by_cases hc : 0 < (l.takeWhile (isExpired now)).length
    · by_cases he : (l.dropWhile (isExpired now)).isEmpty
      · simp [hm, hc, he, List.isEmpty_iff.mp he]
      · simp [hm, hc, he]
    · have : l.takeWhile (isExpired now) = [] := by
        cases hq : l.takeWhile (isExpired now) with
        | nil => rfl
        | cons a t => rw [hq] at hc; simp at hc
      have hd : l.dropWhile (isExpired now) = l := by
        have h2 := List.takeWhile_append_dropWhile (isExpired now) l
        rw [this] at h2
        simpa using h2
      simp [hm, hc, hd]

theorem vIdleMap_other (m : String → Option (List (Nat × Nat))) (name n : String) (now : Nat)
    (h : n ≠ name) : vIdleMap m name now n = m n := by
  unfold vIdleMap
  cases hm : m name with
  | none => rfl
  | some l =>
    by_cases hc : 0 < (l.takeWhile (isExpired now)).length
    · by_cases he : (l.dropWhile (isExpired now)).isEmpty <;> simp [hc, he, h]
    · simp [hc]

theorem dropWhile_eq_self_of_takeWhile_nil {α : Type} {p : α → Bool} {l : List α}
    (h : l.takeWhile p = []) : l.dropWhile p = l := by
  have h2 := List.takeWhile_append_dropWhile p l
  rw [h] at h2
  simpa using h2

theorem vIdleKill_of_true (m : String → Option (List (Nat × Nat))) (d : Nat → Bool)
    (name : String) (now : Nat) (x : Nat) (h : d x = true) :
    vIdleKill m d name now x = true := by
  unfold vIdleKill
  cases hm : m name with
  | none => exact h
  | some l => by_cases ha : (l.takeWhile (isExpired now)).any (fun e => e.1 == x) <;> simp [ha, h]

theorem vIdleKill_elim (m : String → Option (List (Nat × Nat))) (d : Nat → Bool)
    (name : String) (now : Nat) (x : Nat) (h : vIdleKill m d name now x = true) :
    d x = true ∨ x ∈ ((getL (m name)).takeWhile (isExpired now)).map Prod.fst := by
  unfold vIdleKill at h
  cases hm : m name with
  | none => rw [hm] at h; exact Or.inl h
  | some l =>
    rw [hm] at h
    simp only at h
    by_cases ha : (l.takeWhile (isExpired now)).any (fun e => e.1 == x)
    · rcases List.any_eq_true.mp ha with ⟨e, he, hx⟩
      right
      simp only [getL_some, List.mem_map]
      exact ⟨e, he, by simpa using hx⟩
    · left; simpa [ha] using h

theorem fisSid_eq (m : String → Option (List (Nat × Nat))) (name : String) (now : Nat) :
    fisSid m name now = ((getL (m name)).dropWhile (isExpired now)).head?.map Prod.fst := by
  unfold fisSid
  cases hm : m name with
  | none => simp
  | some l => cases hd : l.dropWhile (isExpired now) <;> simp [hd]

theorem getL_fisIdleMap (m : String → Option (List (Nat × Nat))) (name : String) (now : Nat) :
    getL (fisIdleMap m name now name) = ((getL (m name)).dropWhile (isExpired now)).tail := by
  unfold fisIdleMap
  cases hm : m name with
  | none => simp [hm]
  | some l =>
    have h3 := getL_vIdleMap m name now
    rw [hm] at h3
    simp only [getL_some] at h3
    cases hd : l.dropWhile (isExpired now) with
    | nil => simp [hm, hd, h3]
    | cons e t => simp [hm, hd]

theorem fisIdleMap_other (m : String → Option (List (Nat × Nat))) (name n : String)
    (now : Nat) (h : n ≠ name) : fisIdleMap m name now n = m n := by
  unfold fisIdleMap
  cases hm : m name with
  | none => rfl
  | some l =>
    cases hd : l.dropWhile (isExpired now) with
    | nil =>
      simp only [hd]
      exact vIdleMap_other m name n now h
    | cons e t => simp [hd, h]

theorem fisSockMap_of_none (ms : String → Option (List Nat))
    (mi : String → Option (List (Nat × Nat))) (name : String) (now : Nat)
    (h : fisSid mi name now = none) : fisSockMap ms mi name now = ms := by
  unfold fisSockMap; rw [h]

theorem fisSockMap_of_some (ms : String → Option (List Nat))
    (mi : String → Option (List (Nat × Nat))) (name : String) (now : Nat) (sid : Nat)
    (h : fisSid mi name now = some sid) : fisSockMap ms mi name now = pushVal ms name sid := by
  unfold fisSockMap; rw [h]

/-- A present idle key stays present through `fisIdleMap` when the validated
remainder is non-empty: `shift` leaves the array behind. -/
theorem fisIdleMap_present (m : String → Option (List (Nat × Nat))) (name : String)
    (now : Nat) (l : List (Nat × Nat)) (e : Nat × Nat) (t : List (Nat × Nat))
    (hm : m name = some l) (hd : l.dropWhile (isExpired now) = e :: t) :
    fisIdleMap m name now name = some t := by
  unfold fisIdleMap
  rw [hm]
  simp [hd]

/-! ### Frame lemmas: fields an operation leaves untouched -/

@[simp] theorem removeFromSockets_requests (st : AgentState) (s : Nat) (name : String) :
    (removeFromSockets st s name).requests = st.requests := rfl
@[simp] theorem removeFromSockets_idleSockets (st : AgentState) (s : Nat) (name : String) :
    (removeFromSockets st s name).idleSockets = st.idleSockets := rfl
@[simp] theorem removeFromSockets_nextSid (st : AgentState) (s : Nat) (name : String) :
    (removeFromSockets st s name).nextSid = st.nextSid := rfl
@[simp] theorem removeFromSockets_maxSockets (st : AgentState) (s : Nat) (name : String) :
    (removeFromSockets st s name).maxSockets = st.maxSockets := rfl
@[simp] theorem removeFromSockets_keepAlive (st : AgentState) (s : Nat) (name : String) :
    (removeFromSockets st s name).keepAlive = st.keepAlive := rfl
@[simp] theorem removeFromSockets_assignLog (st : AgentState) (s : Nat) (name : String) :
    (removeFromSockets st s name).assignLog = st.assignLog := rfl
@[simp] theorem removeFromSockets_destroyed (st : AgentState) (s : Nat) (name : String) :
    (removeFromSockets st s name).destroyed = st.destroyed := rfl

@[simp] theorem removeFromIdleSockets_requests (st : AgentState) (s : Nat) (name : String) :
    (removeFromIdleSockets st s name).requests = st.requests := rfl
@[simp] theorem removeFromIdleSockets_sockets (st : AgentState) (s : Nat) (name : String) :
    (removeFromIdleSockets st s name).sockets = st.sockets := rfl
@[simp] theorem removeFromIdleSockets_nextSid (st : AgentState) (s : Nat) (name : String) :
    (removeFromIdleSockets st s name).nextSid = st.nextSid := rfl
@[simp] theorem removeFromIdleSockets_maxSockets (st : AgentState) (s : Nat) (name : String) :
    (removeFromIdleSockets st s name).maxSockets = st.maxSockets := rfl
@[simp] theorem removeFromIdleSockets_keepAlive (st : AgentState) (s : Nat) (name : String) :
    (removeFromIdleSockets st s name).keepAlive = st.keepAlive := rfl
@[simp] theorem removeFromIdleSockets_assignLog (st : AgentState) (s : Nat) (name : String) :
    (removeFromIdleSockets st s name).assignLog = st.assignLog := rfl
@[simp] theorem removeFromIdleSockets_destroyed (st : AgentState) (s : Nat) (name : String) :
    (removeFromIdleSockets st s name).destroyed = st.destroyed := rfl

@[simp] theorem putIdleSocket_sockets (st : AgentState) (s : Nat) (name : String) (now : Nat) :
    (putIdleSocket st s name now).sockets = st.sockets := rfl
@[simp] theorem putIdleSocket_requests (st : AgentState) (s : Nat) (name : String) (now : Nat) :
    (putIdleSocket st s name now).requests = st.requests := rfl
@[simp] theorem putIdleSocket_nextSid (st : AgentState) (s : Nat) (name : String) (now : Nat) :
    (putIdleSocket st s name now).nextSid = st.nextSid := rfl
@[simp] theorem putIdleSocket_maxSockets (st : AgentState) (s : Nat) (name : String) (now : Nat) :
    (putIdleSocket st s name now).maxSockets = st.maxSockets := rfl
@[simp] theorem putIdleSocket_keepAlive (st : AgentState) (s : Nat) (name : String) (now : Nat) :
    (putIdleSocket st s name now).keepAlive = st.keepAlive := rfl
@[simp] theorem putIdleSocket_assignLog (st : AgentState) (s : Nat) (name : String) (now : Nat) :
    (putIdleSocket st s name now).assignLog = st.assignLog := rfl
@[simp] theorem putIdleSocket_destroyed (st : AgentState) (s : Nat) (name : String) (now : Nat) :
    (putIdleSocket st s name now).destroyed = st.destroyed := rfl
@[simp] theorem putIdleSocket_idleSockets (st : AgentState) (s : Nat) (name : String) (now : Nat) :
    (putIdleSocket st s name now).idleSockets
      = pushVal st.idleSockets name (s, now + st.keepAlive) := rfl

@[simp] theorem findIdleSocket_requests (st : AgentState) (name : String) (now : Nat) :
    (findIdleSocket st name now).1.requests = st.requests := rfl
@[simp] theorem findIdleSocket_nextSid (st : AgentState) (name : String) (now : Nat) :
    (findIdleSocket st name now).1.nextSid = st.nextSid := rfl
@[simp] theorem findIdleSocket_maxSockets (st : AgentState) (name : String) (now : Nat) :
    (findIdleSocket st name now).1.maxSockets = st.maxSockets := rfl
@[simp] theorem findIdleSocket_keepAlive (st : AgentState) (name : String) (now : Nat) :
    (findIdleSocket st name now).1.keepAlive = st.keepAlive := rfl
@[simp] theorem findIdleSocket_assignLog (st : AgentState) (name : String) (now : Nat) :
    (findIdleSocket st name now).1.assignLog = st.assignLog := rfl
@[simp] theorem findIdleSocket_snd (st : AgentState) (name : String) (now : Nat) :
    (findIdleSocket st name now).2 = fisSid st.idleSockets name now := rfl

@[simp] theorem createConnection_sockets (st : AgentState) (name : String) :
    (createConnection st name).1.sockets = st.sockets := rfl
@[simp] theorem createConnection_idleSockets (st : AgentState) (name : String) :
    (createConnection st name).1.idleSockets = st.idleSockets := rfl
@[simp] theorem createConnection_requests (st : AgentState) (name : String) :
    (createConnection st name).1.requests = st.requests := rfl
@[simp] theorem createConnection_assignLog (st : AgentState) (name : String) :
    (createConnection st name).1.assignLog = st.assignLog := rfl
@[simp] theorem createConnection_maxSockets (st : AgentState) (name : String) :
    (createConnection st name).1.maxSockets = st.maxSockets := rfl
@[simp] theorem createConnection_keepAlive (st : AgentState) (name : String) :
    (createConnection st name).1.keepAlive = st.keepAlive := rfl
@[simp] theorem createConnection_nextSid (st : AgentState) (name : String) :
    (createConnection st name).1.nextSid = st.nextSid + 1 := rfl
@[simp] theorem createConnection_snd (st : AgentState) (name : String) :
    (createConnection st name).2 = st.nextSid := rfl

@[simp] theorem validateIdle_sockets (st : AgentState) (name : String) (now : Nat) :
    (validateIdle st name now).1.sockets = st.sockets := rfl
@[simp] theorem validateIdle_requests (st : AgentState) (name : String) (now : Nat) :
    (validateIdle st name now).1.requests = st.requests := rfl
@[simp] theorem validateIdle_nextSid (st : AgentState) (name : String) (now : Nat) :
    (validateIdle st name now).1.nextSid = st.nextSid := rfl
@[simp] theorem validateIdle_maxSockets (st : AgentState) (name : String) (now : Nat) :
    (validateIdle st name now).1.maxSockets = st.maxSockets := rfl
@[simp] theorem validateIdle_keepAlive (st : AgentState) (name : String) (now : Nat) :
    (validateIdle st name now).1.keepAlive = st.keepAlive := rfl
@[simp] theorem validateIdle_assignLog (st : AgentState) (name : String) (now : Nat) :
    (validateIdle st name now).1.assignLog = st.assignLog := rfl
@[simp] theorem validateIdle_idleSockets (st : AgentState) (name : String) (now : Nat) :
    (validateIdle st name now).1.idleSockets = vIdleMap st.idleSockets name now := rfl
@[simp] theorem validateIdle_snd (st : AgentState) (name : String) (now : Nat) :
    (validateIdle st name now).2 = vIdleBool (st.idleSockets name) now := rfl

@[simp] theorem destroySock_sockets (st : AgentState) (s : Nat) :
    (destroySock st s).sockets = st.sockets := rfl
@[simp] theorem destroySock_idleSockets (st : AgentState) (s : Nat) :
    (destroySock st s).idleSockets = st.idleSockets := rfl
@[simp] theorem destroySock_requests (st : AgentState) (s : Nat) :
    (destroySock st s).requests = st.requests := rfl
@[simp] theorem destroySock_assignLog (st : AgentState) (s : Nat) :
    (destroySock st s).assignLog = st.assignLog := rfl
@[simp] theorem destroySock_nextSid (st : AgentState) (s : Nat) :
    (destroySock st s).nextSid = st.nextSid := rfl
@[simp] theorem destroySock_maxSockets (st : AgentState) (s : Nat) :
    (destroySock st s).maxSockets = st.maxSockets := rfl

@[simp] theorem closeEvent_body (st : AgentState) (s : Nat) (name : String) (now : Nat) :
    (closeEvent st s name now).sockets = (removeSocket st s name now).sockets ∧
    (closeEvent st s name now).idleSockets = (removeSocket st s name now).idleSockets ∧
    (closeEvent st s name now).requests = (removeSocket st s name now).requests ∧
    (closeEvent st s name now).assignLog = (removeSocket st s name now).assignLog ∧
    (closeEvent st s name now).nextSid = (removeSocket st s name now).nextSid ∧
    (closeEvent st s name now).maxSockets = (removeSocket st s name now).maxSockets :=
  ⟨rfl, rfl, rfl, rfl, rfl, rfl⟩

@[simp] theorem agentRemove_body (st : AgentState) (s : Nat) (name : String) (now : Nat) :
    (agentRemove st s name now).sockets = (removeSocket st s name now).sockets ∧
    (agentRemove st s name now).idleSockets = (removeSocket st s name now).idleSockets ∧
    (agentRemove st s name now).requests = (removeSocket st s name now).requests ∧
    (agentRemove st s name now).assignLog = (removeSocket st s name now).assignLog ∧
    (agentRemove st s name now).nextSid = (removeSocket st s name now).nextSid ∧
    (agentRemove st s name now).maxSockets = (removeSocket st s name now).maxSockets :=
  ⟨rfl, rfl, rfl, rfl, rfl, rfl⟩

@[simp] theorem findIdleSocket_sockets (st : AgentState) (name : String) (now : Nat) :
    (findIdleSocket st name now).1.sockets = fisSockMap st.sockets st.idleSockets name now := rfl
@[simp] theorem findIdleSocket_idleSockets (st : AgentState) (name : String) (now : Nat) :
    (findIdleSocket st name now).1.idleSockets = fisIdleMap st.idleSockets name now := rfl
@[simp] theorem findIdleSocket_destroyed (st : AgentState) (name : String) (now : Nat) :
    (findIdleSocket st name now).1.destroyed = vIdleKill st.idleSockets st.destroyed name now := rfl

/-! ### Characterization of `findOrCreateSocket` -/

theorem foc_requests (st : AgentState) (name : String) (now : Nat) :
    (findOrCreateSocket st name now).1.requests = st.requests := by
  unfold findOrCreateSocket
  cases hs : fisSid st.idleSockets name now <;>
    simp [hs]

theorem foc_assignLog (st : AgentState) (name : String) (now : Nat) :
    (findOrCreateSocket st name now).1.assignLog = st.assignLog := by
  unfold findOrCreateSocket
  cases hs : fisSid st.idleSockets name now <;>
    simp [hs]

theorem foc_maxSockets (st : AgentState) (name : String) (now : Nat) :
    (findOrCreateSocket st name now).1.maxSockets = st.maxSockets := by
  unfold findOrCreateSocket
  cases hs : fisSid st.idleSockets name now <;>
    simp [hs]

theorem foc_keepAlive (st : AgentState) (name : String) (now : Nat) :
    (findOrCreateSocket st name now).1.keepAlive = st.keepAlive := by
  unfold findOrCreateSocket
  cases hs : fisSid st.idleSockets name now <;>
    simp [hs]

theorem foc_nextSid_ge (st : AgentState) (name : String) (now : Nat) :
    st.nextSid ≤ (findOrCreateSocket st name now).1.nextSid := by
  unfold findOrCreateSocket
  cases hs : fisSid st.idleSockets name now <;>
    simp [hs]

theorem foc_active (st : AgentState) (name : String) (now : Nat) :
    activeOf (findOrCreateSocket st name now).1 name
      = activeOf st name ++ [(findOrCreateSocket st name now).2] := by
  unfold findOrCreateSocket
  cases hs : fisSid st.idleSockets name now with
  | some sid =>
    simp [hs, activeOf, fisSockMap_of_some _ _ _ _ _ hs, getL_pushVal]
  | none =>
    simp [hs, activeOf, fisSockMap_of_none _ _ _ _ hs, getL_pushVal]

theorem foc_sockets_other (st : AgentState) (name n : String) (now : Nat) (h : n ≠ name) :
    (findOrCreateSocket st name now).1.sockets n = st.sockets n := by
  unfold findOrCreateSocket
  cases hs : fisSid st.idleSockets name now with
  | some sid =>
    simp [hs, fisSockMap_of_some _ _ _ _ _ hs, pushVal_other _ _ _ _ h]
  | none =>
    simp [hs, fisSockMap_of_none _ _ _ _ hs, pushVal_other _ _ _ _ h]

theorem foc_idle (st : AgentState) (name : String) (now : Nat) :
    idleOf (findOrCreateSocket st name now).1 name
      = ((idleOf st name).dropWhile (isExpired now)).tail := by
  unfold findOrCreateSocket
  cases hs : fisSid st.idleSockets name now <;>
    simp [hs, idleOf, getL_fisIdleMap]

theorem foc_idle_other (st : AgentState) (name n : String) (now : Nat) (h : n ≠ name) :
    (findOrCreateSocket st name now).1.idleSockets n = st.idleSockets n := by
  unfold findOrCreateSocket
  cases hs : fisSid st.idleSockets name now <;>
    simp [hs, fisIdleMap_other _ _ _ _ h]

theorem fisSid_some_elim (m : String → Option (List (Nat × Nat))) (name : String)
    (now sid : Nat) (h : fisSid m name now = some sid) :
    ∃ exp t, (getL (m name)).dropWhile (isExpired now) = (sid, exp) :: t := by
  rw [fisSid_eq] at h
  cases hd : (getL (m name)).dropWhile (isExpired now) with
  | nil => rw [hd] at h; simp at h
  | cons e t =>
    rw [hd] at h
    simp at h
    exact ⟨e.2, t, by cases e; simp_all⟩

theorem fisSid_none_iff (m : String → Option (List (Nat × Nat))) (name : String) (now : Nat) :
    fisSid m name now = none ↔ (getL (m name)).dropWhile (isExpired now) = [] := by
  rw [fisSid_eq]
  cases hd : (getL (m name)).dropWhile (isExpired now) <;> simp

theorem foc_snd_some (st : AgentState) (name : String) (now sid : Nat)
    (h : fisSid st.idleSockets name now = some sid) :
    (findOrCreateSocket st name now).2 = sid := by
  unfold findOrCreateSocket; simp [h]

theorem foc_snd_none (st : AgentState) (name : String) (now : Nat)
    (h : fisSid st.idleSockets name now = none) :
    (findOrCreateSocket st name now).2 = st.nextSid := by
  unfold findOrCreateSocket; simp [h]

theorem foc_nextSid_none (st : AgentState) (name : String) (now : Nat)
    (h : fisSid st.idleSockets name now = none) :
    (findOrCreateSocket st name now).1.nextSid = st.nextSid + 1 := by
  unfold findOrCreateSocket; simp [h]

theorem foc_nextSid_some (st : AgentState) (name : String) (now sid : Nat)
    (h : fisSid st.idleSockets name now = some sid) :
    (findOrCreateSocket st name now).1.nextSid = st.nextSid := by
  unfold findOrCreateSocket; simp [h]

/-- A freshly created socket is not destroyed. -/
theorem foc_destroyed_none (st : AgentState) (name : String) (now : Nat)
    (h : fisSid st.idleSockets name now = none) :
    (findOrCreateSocket st name now).1.destroyed (findOrCreateSocket st name now).2 = false := by
  unfold findOrCreateSocket
  simp [h, createConnection]

/-- `findOrCreateSocket` either reuses the first valid idle socket (no
creation: `nextSid` unchanged, the socket moves from the idle list to the
active set) or creates a fresh one (the idle list of the key is empty after
validation). -/
theorem foc_cases (st : AgentState) (name : String) (now : Nat) :
    ((findOrCreateSocket st name now).2 ∈ idleSidsOf st name ∧
     (findOrCreateSocket st name now).1.nextSid = st.nextSid ∧
     (findOrCreateSocket st name now).2 :: idleSidsOf (findOrCreateSocket st name now).1 name
       = ((idleOf st name).dropWhile (isExpired now)).map Prod.fst) ∨
    ((findOrCreateSocket st name now).2 = st.nextSid ∧
     (findOrCreateSocket st name now).1.nextSid = st.nextSid + 1 ∧
     idleOf (findOrCreateSocket st name now).1 name = []) := by
  cases hs : fisSid st.idleSockets name now with
  | some sid =>
    left
    obtain ⟨exp, t, hd⟩ := fisSid_some_elim _ _ _ _ hs
    have hsnd := foc_snd_some st name now sid hs
    refine ⟨?_, foc_nextSid_some st name now sid hs, ?_⟩
    · rw [hsnd]
      have hmem : (sid, exp) ∈ idleOf st name :=
        (List.dropWhile_sublist _).subset (hd ▸ List.mem_cons_self _ _)
      exact List.mem_map.mpr ⟨(sid, exp), hmem, rfl⟩
    · rw [hsnd]
      unfold idleSidsOf
      rw [foc_idle]
      have hd' : (idleOf st name).dropWhile (isExpired now) = (sid, exp) :: t := hd
      rw [hd']
      simp
  | none =>
    right
    refine ⟨foc_snd_none st name now hs, foc_nextSid_none st name now hs, ?_⟩
    rw [foc_idle]
    have h0 : (idleOf st name).dropWhile (isExpired now) = [] := (fisSid_none_iff _ _ _).mp hs
    rw [h0]
    rfl

/-! ### Characterization of the free handler, removeSocket, addRequest -/

theorem onFree_assign (st : AgentState) (name : String) (s now r : Nat) (rest : List Nat)
    (hd : st.destroyed s = false) (hq : st.requests name = some (r :: rest)) :
    onFreeEvent st name s now =
      { st with
        assignLog := st.assignLog ++ [(r, s)]
        requests := upd st.requests name (if rest.isEmpty then none else some rest) } := by
  unfold onFreeEvent
  rw [hd, hq]

theorem onFree_park (st : AgentState) (name : String) (s now : Nat)
    (h : st.destroyed s = true ∨ queueOf st name = []) :
    onFreeEvent st name s now = putIdleSocket (removeFromSockets st s name) s name now := by
  unfold onFreeEvent
  rcases h with h | h
  · rw [h]
  · unfold queueOf at h
    cases hq : st.requests name with
    | none => cases st.destroyed s <;> rfl
    | some l =>
      rw [hq] at h
      simp only [getL_some] at h
      subst h
      cases st.destroyed s <;> rfl

theorem removeSocket_no_waiters (st : AgentState) (s : Nat) (name : String) (now : Nat)
    (h : queueOf st name = []) :
    removeSocket st s name now = removeFromIdleSockets (removeFromSockets st s name) s name := by
  unfold removeSocket
  unfold queueOf at h
  cases hq : st.requests name with
  | none => simp [hq]
  | some l =>
    rw [hq] at h
    simp only [getL_some] at h
    subst h
    simp [hq]

theorem removeSocket_waiters (st : AgentState) (s : Nat) (name : String) (now r : Nat)
    (rest : List Nat) (hq : st.requests name = some (r :: rest)) :
    removeSocket st s name now =
      onFreeEvent
        (findOrCreateSocket (removeFromIdleSockets (removeFromSockets st s name) s name) name now).1
        name
        (findOrCreateSocket (removeFromIdleSockets (removeFromSockets st s name) s name) name now).2
        now := by
  unfold removeSocket
  simp [hq]

theorem addRequest_assign (st : AgentState) (req : Nat) (name : String) (now : Nat)
    (h : (activeOf st name).length < st.maxSockets) :
    addRequest st req name now =
      { (findOrCreateSocket { st with sockets := ensureKey st.sockets name } name now).1 with
        assignLog :=
          (findOrCreateSocket { st with sockets := ensureKey st.sockets name } name now).1.assignLog
            ++ [(req, (findOrCreateSocket { st with sockets := ensureKey st.sockets name } name now).2)] } := by
  unfold addRequest
  have hc : (getL (ensureKey st.sockets name name)).length < st.maxSockets := by
    rw [getL_ensureKey]; exact h
  simp [hc]

theorem addRequest_queue (st : AgentState) (req : Nat) (name : String) (now : Nat)
    (h : ¬ (activeOf st name).length < st.maxSockets) :
    addRequest st req name now =
      { st with
        sockets := ensureKey st.sockets name
        requests := pushVal st.requests name req } := by
  unfold addRequest
  have hc : ¬ (getL (ensureKey st.sockets name name)).length < st.maxSockets := by
    rw [getL_ensureKey]; exact h
  simp [hc]

/-! ### Pool invariants

`KeyInvD` collects the structural facts about one key's active list `a` and
idle socket-id list `i`: no duplicates, no socket in both, and every socket
already created (`< nextSid`).  `BudgetInv` is the capacity bound: active
plus idle sockets of a key never exceed `maxSockets`. -/

def KeyInvD (ns : Nat) (a i : List Nat) : Prop :=
  a.Nodup ∧ i.Nodup ∧ (∀ x ∈ a, x ∉ i) ∧ (∀ x ∈ a, x < ns) ∧ (∀ x ∈ i, x < ns)

def InvD (st : AgentState) : Prop :=
  ∀ name, KeyInvD st.nextSid (activeOf st name) (idleSidsOf st name)

def BudgetInv (st : AgentState) : Prop :=
  ∀ name, (activeOf st name).length + (idleSidsOf st name).length ≤ st.maxSockets

theorem KeyInvD_mono {ns ns' : Nat} {a i : List Nat} (h : ns ≤ ns')
    (hk : KeyInvD ns a i) : KeyInvD ns' a i :=
  ⟨hk.1, hk.2.1, hk.2.2.1,
   fun x hx => lt_of_lt_of_le (hk.2.2.2.1 x hx) h,
   fun x hx => lt_of_lt_of_le (hk.2.2.2.2 x hx) h⟩

theorem nodup_append_singleton {l : List Nat} {x : Nat} (h : l.Nodup) (hx : x ∉ l) :
    (l ++ [x]).Nodup := by
  rw [List.nodup_append]
  exact ⟨h, List.nodup_singleton x, by simpa [List.disjoint_singleton] using hx⟩

theorem keyInvD_erase {ns : Nat} {a i : List Nat} (hk : KeyInvD ns a i) (s : Nat) :
    KeyInvD ns (a.erase s) (i.erase s) := by
  obtain ⟨h1, h2, h3, h4, h5⟩ := hk
  refine ⟨h1.erase s, h2.erase s, ?_, ?_, ?_⟩
  · intro x hx hxi
    exact h3 x (List.mem_of_mem_erase hx) (List.mem_of_mem_erase hxi)
  · exact fun x hx => h4 x (List.mem_of_mem_erase hx)
  · exact fun x hx => h5 x (List.mem_of_mem_erase hx)

/-- The two detach calls at the head of `removeSocket` preserve the
structural invariant. -/
theorem rmPair_InvD (st : AgentState) (s : Nat) (name : String) (h : InvD st) :
    InvD (removeFromIdleSockets (removeFromSockets st s name) s name) := by
  intro n
  by_cases hn : n = name
  · rw [hn]
    have ha : activeOf (removeFromIdleSockets (removeFromSockets st s name) s name) name
        = (activeOf st name).erase s := by
      unfold activeOf
      rw [removeFromIdleSockets_sockets]
      exact getL_rmSock st.sockets s name
    have hi : idleSidsOf (removeFromIdleSockets (removeFromSockets st s name) s name) name
        = (idleSidsOf st name).erase s := by
      unfold idleSidsOf idleOf
      show (getL (rmIdle (removeFromSockets st s name).idleSockets s name name)).map Prod.fst = _
      rw [removeFromSockets_idleSockets, getL_rmIdle, erasePSock_map_fst]
    rw [ha, hi]
    exact keyInvD_erase (h name) s
  · have ha : activeOf (removeFromIdleSockets (removeFromSockets st s name) s name) n
        = activeOf st n := by
      unfold activeOf
      rw [removeFromIdleSockets_sockets]
      exact congrArg getL (rmSock_other st.sockets s name n hn)
    have hi : idleSidsOf (removeFromIdleSockets (removeFromSockets st s name) s name) n
        = idleSidsOf st n := by
      unfold idleSidsOf idleOf
      show (getL (rmIdle (removeFromSockets st s name).idleSockets s name n)).map Prod.fst = _
      rw [removeFromSockets_idleSockets, rmIdle_other st.idleSockets s name n hn]
    rw [ha, hi]
    exact h n

/-- Parking a freed active socket idle (`else` branch of the free handler)
preserves the structural invariant. -/
theorem park_InvD (st : AgentState) (s : Nat) (name : String) (now : Nat)
    (h : InvD st) (hact : s ∈ activeOf st name) :
    InvD (putIdleSocket (removeFromSockets st s name) s name now) := by
  intro n
  by_cases hn : n = name
  · rw [hn]
    obtain ⟨h1, h2, h3, h4, h5⟩ := h name
    have ha : activeOf (putIdleSocket (removeFromSockets st s name) s name now) name
        = (activeOf st name).erase s := by
      unfold activeOf
      rw [putIdleSocket_sockets]
      exact getL_rmSock st.sockets s name
    have hi : idleSidsOf (putIdleSocket (removeFromSockets st s name) s name now) name
        = idleSidsOf st name ++ [s] := by
      unfold idleSidsOf idleOf
      rw [putIdleSocket_idleSockets]
      show (getL (pushVal (removeFromSockets st s name).idleSockets name _ name)).map Prod.fst = _
      rw [getL_pushVal]
      simp [idleSidsOf, idleOf]
    have hsnotidle : s ∉ idleSidsOf st name := h3 s hact
    rw [ha, hi]
    refine ⟨h1.erase s, nodup_append_singleton h2 hsnotidle, ?_, ?_, ?_⟩
    · intro x hx
      have hxa := List.mem_of_mem_erase hx
      have hxs : x ≠ s := ((h1.mem_erase_iff).mp hx).1
      simp only [List.mem_append, List.mem_singleton]
      rintro (hxi | hxe)
      · exact h3 x hxa hxi
      · exact hxs hxe
    · exact fun x hx => h4 x (List.mem_of_mem_erase hx)
    · intro x hx
      rcases List.mem_append.mp hx with hxi | hxe
      · exact h5 x hxi
      · rw [List.mem_singleton.mp hxe]; exact h4 s hact
  · have ha : activeOf (putIdleSocket (removeFromSockets st s name) s name now) n
        = activeOf st n := by
      unfold activeOf
      rw [putIdleSocket_sockets]
      exact congrArg getL (rmSock_other st.sockets s name n hn)
    have hi : idleSidsOf (putIdleSocket (removeFromSockets st s name) s name now) n
        = idleSidsOf st n := by
      unfold idleSidsOf idleOf
      rw [putIdleSocket_idleSockets]
      rw [pushVal_other _ _ _ _ hn]
      rfl
    rw [ha, hi]
    exact h n

/-- `findOrCreateSocket` preserves the structural invariant. -/
theorem foc_InvD (st : AgentState) (name : String) (now : Nat) (h : InvD st) :
    InvD (findOrCreateSocket st name now).1 := by
  intro n
  by_cases hn : n = name
  · rw [hn]
    obtain ⟨h1, h2, h3, h4, h5⟩ := h name
    have hact := foc_active st name now
    rcases foc_cases st name now with ⟨hmem, hns, hcons⟩ | ⟨hsid, hns, hidle⟩
    · have hsubl : List.Sublist
          ((findOrCreateSocket st name now).2 :: idleSidsOf (findOrCreateSocket st name now).1 name)
          (idleSidsOf st name) := by
        rw [hcons]
        exact (List.dropWhile_sublist _).map Prod.fst
      have hnd := h2.sublist hsubl
      rw [List.nodup_cons] at hnd
      have hI'sub : ∀ x ∈ idleSidsOf (findOrCreateSocket st name now).1 name,
          x ∈ idleSidsOf st name := fun x hx => hsubl.subset (List.mem_cons_of_mem _ hx)
      have hsA : (findOrCreateSocket st name now).2 ∉ activeOf st name :=
        fun hc => h3 _ hc hmem
      rw [hact, hns]
      refine ⟨nodup_append_singleton h1 hsA, hnd.2, ?_, ?_, ?_⟩
      · intro x hx
        rcases List.mem_append.mp hx with hxa | hxe
        · intro hxi; exact h3 x hxa (hI'sub x hxi)
        · rw [List.mem_singleton.mp hxe]; exact hnd.1
      · intro x hx
        rcases List.mem_append.mp hx with hxa | hxe
        · exact h4 x hxa
        · rw [List.mem_singleton.mp hxe]; exact h5 _ hmem
      · exact fun x hx => h5 x (hI'sub x hx)
    · have hidle' : idleSidsOf (findOrCreateSocket st name now).1 name = [] := by
        unfold idleSidsOf; rw [hidle]; rfl
      rw [hact, hns, hsid, hidle']
      refine ⟨nodup_append_singleton h1 (fun hc => lt_irrefl _ (h4 _ hc)),
        List.nodup_nil, ?_, ?_, ?_⟩
      · intro x _; exact List.not_mem_nil x
      · intro x hx
        rcases List.mem_append.mp hx with hxa | hxe
        · exact lt_trans (h4 x hxa) (Nat.lt_succ_self _)
        · rw [List.mem_singleton.mp hxe]; exact Nat.lt_succ_self _
      · intro x hx; cases hx
  · have ha : activeOf (findOrCreateSocket st name now).1 n = activeOf st n := by
      unfold activeOf; rw [foc_sockets_other st name n now hn]
    have hi : idleSidsOf (findOrCreateSocket st name now).1 n = idleSidsOf st n := by
      unfold idleSidsOf idleOf; rw [foc_idle_other st name n now hn]
    rw [ha, hi]
    exact KeyInvD_mono (foc_nextSid_ge st name now) (h n)

/-- The free handler preserves the structural invariant when the freed
socket is active (as every socket that serves a request is). -/
theorem onFree_InvD (st : AgentState) (name : String) (s now : Nat)
    (h : InvD st) (hact : s ∈ activeOf st name) :
    InvD (onFreeEvent st name s now) := by
  cases hdes : st.destroyed s with
  | true => rw [onFree_park st name s now (Or.inl hdes)]; exact park_InvD st s name now h hact
  | false =>
    cases hq : st.requests name with
    | none =>
      rw [onFree_park st name s now (Or.inr (by simp [queueOf, hq]))]
      exact park_InvD st s name now h hact
    | some l =>
      cases l with
      | nil =>
        rw [onFree_park st name s now (Or.inr (by simp [queueOf, hq]))]
        exact park_InvD st s name now h hact
      | cons r rest =>
        rw [onFree_assign st name s now r rest hdes hq]
        exact h

/-- `removeSocket` preserves the structural invariant (for any socket,
tracked or stale). -/
theorem removeSocket_InvD (st : AgentState) (s : Nat) (name : String) (now : Nat)
    (h : InvD st) : InvD (removeSocket st s name now) := by
  have h2 := rmPair_InvD st s name h
  cases hq : st.requests name with
  | none =>
    rw [removeSocket_no_waiters st s name now (by simp [queueOf, hq])]
    exact h2
  | some l =>
    cases l with
    | nil =>
      rw [removeSocket_no_waiters st s name now (by simp [queueOf, hq])]
      exact h2
    | cons r rest =>
      have hq2 : (removeFromIdleSockets (removeFromSockets st s name) s name).requests name
          = some (r :: rest) := by
        rw [removeFromIdleSockets_requests, removeFromSockets_requests]; exact hq
      rw [removeSocket_waiters st s name now r rest hq]
      set st2 := removeFromIdleSockets (removeFromSockets st s name) s name with hst2
      have h3 := foc_InvD st2 name now h2
      have hmem : (findOrCreateSocket st2 name now).2
          ∈ activeOf (findOrCreateSocket st2 name now).1 name := by
        rw [foc_active]
        exact List.mem_append.mpr (Or.inr (List.mem_singleton.mpr rfl))
      exact onFree_InvD _ name _ now h3 hmem

/-- `addRequest` preserves the structural invariant. -/
theorem addRequest_InvD (st : AgentState) (req : Nat) (name : String) (now : Nat)
    (h : InvD st) : InvD (addRequest st req name now) := by
  have h0 : InvD ({ st with sockets := ensureKey st.sockets name }) := by
    intro n
    by_cases hn : n = name
    · rw [hn]
      have ha : activeOf ({ st with sockets := ensureKey st.sockets name }) name
          = activeOf st name := by
        unfold activeOf
        exact getL_ensureKey st.sockets name
      rw [show idleSidsOf ({ st with sockets := ensureKey st.sockets name }) name
          = idleSidsOf st name from rfl, ha]
      exact h name
    · have ha : activeOf ({ st with sockets := ensureKey st.sockets name }) n
          = activeOf st n := by
        unfold activeOf
        exact congrArg getL (ensureKey_other st.sockets name n hn)
      rw [show idleSidsOf ({ st with sockets := ensureKey st.sockets name }) n
          = idleSidsOf st n from rfl, ha]
      exact h n
  by_cases hc : (activeOf st name).length < st.maxSockets
  · rw [addRequest_assign st req name now hc]
    exact foc_InvD _ name now h0
  · rw [addRequest_queue st req name now hc]
    exact h0

/-- One key's expiry sweep preserves the structural invariant. -/
theorem sweepKey_InvD (st : AgentState) (name : String) (now : Nat) (h : InvD st) :
    InvD (sweepKey st name now) := by
  intro n
  by_cases hn : n = name
  · rw [hn]
    obtain ⟨h1, h2, h3, h4, h5⟩ := h name
    have ha : activeOf (sweepKey st name now) name = activeOf st name := rfl
    have hi : idleSidsOf (sweepKey st name now) name
        = ((idleOf st name).dropWhile (isExpired now)).map Prod.fst := by
      unfold idleSidsOf idleOf sweepKey
      rw [validateIdle_idleSockets, getL_vIdleMap]
    have hsubl : List.Sublist (idleSidsOf (sweepKey st name now) name) (idleSidsOf st name) := by
      rw [hi]
      exact (List.dropWhile_sublist _).map Prod.fst
    rw [ha]
    refine ⟨h1, h2.sublist hsubl, ?_, h4, ?_⟩
    · exact fun x hx hxi => h3 x hx (hsubl.subset hxi)
    · exact fun x hx => h5 x (hsubl.subset hx)
  · have ha : activeOf (sweepKey st name now) n = activeOf st n := rfl
    have hi : idleSidsOf (sweepKey st name now) n = idleSidsOf st n := by
      unfold idleSidsOf idleOf sweepKey
      rw [validateIdle_idleSockets, vIdleMap_other st.idleSockets name n now hn]
    rw [ha, hi]
    exact h n

/-- Every event preserves the structural invariant. -/
theorem step_InvD {st st' : AgentState} (h : Step st st') (hI : InvD st) : InvD st' := by
  cases h with
  | add req name now hfresh => exact addRequest_InvD st req name now hI
  | freed s name now hact hcl hrm => exact onFree_InvD st name s now hI hact
  | closed s name now hnm hlt hcl hrm =>
    exact fun n => removeSocket_InvD st s name now hI n
  | evicted s name now hnm hlt hrm =>
    exact fun n => removeSocket_InvD st s name now hI n
  | sweep name now hp => exact sweepKey_InvD st name now hI
  | destroy s hlt => exact hI

theorem init_InvD (mx ka : Nat) : InvD (initAgent mx ka) := by
  intro name
  refine ⟨List.nodup_nil, List.nodup_nil, ?_, ?_, ?_⟩ <;> intro x hx <;> cases hx

theorem reachable_InvD {st st' : AgentState} (h : Reachable st st') (hI : InvD st) :
    InvD st' := by
  induction h with
  | refl => exact hI
  | tail _ hstep ih => exact step_InvD hstep ih

/-! ### The capacity budget under tracked-socket events -/

theorem park_active (st : AgentState) (s : Nat) (name : String) (now : Nat) :
    activeOf (putIdleSocket (removeFromSockets st s name) s name now) name
      = (activeOf st name).erase s := by
  unfold activeOf
  rw [putIdleSocket_sockets]
  exact getL_rmSock st.sockets s name

theorem park_idleSids (st : AgentState) (s : Nat) (name : String) (now : Nat) :
    idleSidsOf (putIdleSocket (removeFromSockets st s name) s name now) name
      = idleSidsOf st name ++ [s] := by
  unfold idleSidsOf idleOf
  rw [putIdleSocket_idleSockets]
  show (getL (pushVal (removeFromSockets st s name).idleSockets name _ name)).map Prod.fst = _
  rw [getL_pushVal]
  simp [idleSidsOf, idleOf]

theorem park_active_other (st : AgentState) (s : Nat) (name n : String) (now : Nat)
    (hn : n ≠ name) :
    activeOf (putIdleSocket (removeFromSockets st s name) s name now) n = activeOf st n := by
  unfold activeOf
  rw [putIdleSocket_sockets]
  exact congrArg getL (rmSock_other st.sockets s name n hn)

theorem park_idleSids_other (st : AgentState) (s : Nat) (name n : String) (now : Nat)
    (hn : n ≠ name) :
    idleSidsOf (putIdleSocket (removeFromSockets st s name) s name now) n
      = idleSidsOf st n := by
  unfold idleSidsOf idleOf
  rw [putIdleSocket_idleSockets, pushVal_other _ _ _ _ hn]
  rfl

theorem rmPair_active (st : AgentState) (s : Nat) (name : String) :
    activeOf (removeFromIdleSockets (removeFromSockets st s name) s name) name
      = (activeOf st name).erase s := by
  unfold activeOf
  rw [removeFromIdleSockets_sockets]
  exact getL_rmSock st.sockets s name

theorem rmPair_idleSids (st : AgentState) (s : Nat) (name : String) :
    idleSidsOf (removeFromIdleSockets (removeFromSockets st s name) s name) name
      = (idleSidsOf st name).erase s := by
  unfold idleSidsOf idleOf
  show (getL (rmIdle (removeFromSockets st s name).idleSockets s name name)).map Prod.fst = _
  rw [removeFromSockets_idleSockets, getL_rmIdle, erasePSock_map_fst]

theorem rmPair_active_other (st : AgentState) (s : Nat) (name n : String) (hn : n ≠ name) :
    activeOf (removeFromIdleSockets (removeFromSockets st s name) s name) n = activeOf st n := by
  unfold activeOf
  rw [removeFromIdleSockets_sockets]
  exact congrArg getL (rmSock_other st.sockets s name n hn)

theorem rmPair_idleSids_other (st : AgentState) (s : Nat) (name n : String) (hn : n ≠ name) :
    idleSidsOf (removeFromIdleSockets (removeFromSockets st s name) s name) n
      = idleSidsOf st n := by
  unfold idleSidsOf idleOf
  show (getL (rmIdle (removeFromSockets st s name).idleSockets s name n)).map Prod.fst = _
  rw [removeFromSockets_idleSockets, rmIdle_other st.idleSockets s name n hn]

/-- `findOrCreateSocket` keeps every key within the capacity budget when the
touched key's active list is below `maxSockets`. -/
theorem foc_Budget (st : AgentState) (name : String) (now : Nat)
    (hB : BudgetInv st) (hlt : (activeOf st name).length < st.maxSockets) :
    BudgetInv (findOrCreateSocket st name now).1 := by
  intro n
  rw [show (findOrCreateSocket st name now).1.maxSockets = st.maxSockets from
    foc_maxSockets st name now]
  by_cases hn : n = name
  · rw [hn, foc_active]
    rcases foc_cases st name now with ⟨hmem, hns, hcons⟩ | ⟨hsid, hns, hidle⟩
    · have hsubl : List.Sublist
          ((findOrCreateSocket st name now).2 :: idleSidsOf (findOrCreateSocket st name now).1 name)
          (idleSidsOf st name) := by
        rw [hcons]
        exact (List.dropWhile_sublist _).map Prod.fst
      have hlen := hsubl.length_le
      simp only [List.length_cons] at hlen
      have hkey := hB name
      simp only [List.length_append, List.length_singleton]
      omega
    · have hidle' : idleSidsOf (findOrCreateSocket st name now).1 name = [] := by
        unfold idleSidsOf; rw [hidle]; rfl
      rw [hidle']
      simp only [List.length_append, List.length_singleton, List.length_nil]
      omega
  · have ha : activeOf (findOrCreateSocket st name now).1 n = activeOf st n := by
      unfold activeOf; rw [foc_sockets_other st name n now hn]
    have hi : idleSidsOf (findOrCreateSocket st name now).1 n = idleSidsOf st n := by
      unfold idleSidsOf idleOf; rw [foc_idle_other st name n now hn]
    rw [ha, hi]
    exact hB n

/-- The free handler keeps every key within the capacity budget when the
freed socket is active. -/
theorem onFree_Budget (st : AgentState) (name : String) (s now : Nat)
    (hD : InvD st) (hB : BudgetInv st) (hact : s ∈ activeOf st name) :
    BudgetInv (onFreeEvent st name s now) := by
  have hpark : BudgetInv (putIdleSocket (removeFromSockets st s name) s name now) := by
    intro n
    rw [show (putIdleSocket (removeFromSockets st s name) s name now).maxSockets
      = st.maxSockets from rfl]
    by_cases hn : n = name
    · rw [hn, park_active, park_idleSids]
      have hlen := List.length_erase_of_mem hact
      have hpos : 0 < (activeOf st name).length := List.length_pos.mpr
        (fun hc => by rw [hc] at hact; cases hact)
      have hkey := hB name
      simp only [List.length_append, List.length_singleton]
      omega
    · rw [park_active_other st s name n now hn, park_idleSids_other st s name n now hn]
      exact hB n
  cases hdes : st.destroyed s with
  | true => rw [onFree_park st name s now (Or.inl hdes)]; exact hpark
  | false =>
    cases hq : st.requests name with
    | none => rw [onFree_park st name s now (Or.inr (by simp [queueOf, hq]))]; exact hpark
    | some l =>
      cases l with
      | nil => rw [onFree_park st name s now (Or.inr (by simp [queueOf, hq]))]; exact hpark
      | cons r rest =>
        rw [onFree_assign st name s now r rest hdes hq]
        exact hB

/-- `removeSocket` keeps every key within the capacity budget when the
removed socket was still tracked under its name. -/
theorem removeSocket_Budget (st : AgentState) (s : Nat) (name : String) (now : Nat)
    (hD : InvD st) (hB : BudgetInv st)
    (htr : s ∈ activeOf st name ∨ s ∈ idleSidsOf st name) :
    BudgetInv (removeSocket st s name now) := by
  have hD2 : InvD (removeFromIdleSockets (removeFromSockets st s name) s name) :=
    rmPair_InvD st s name hD
  have hkey : (activeOf (removeFromIdleSockets (removeFromSockets st s name) s name) name).length
      + (idleSidsOf (removeFromIdleSockets (removeFromSockets st s name) s name) name).length + 1
      ≤ st.maxSockets := by
    rw [rmPair_active, rmPair_idleSids]
    have hBk := hB name
    rcases htr with hs | hs
    · have h1 := List.length_erase_of_mem hs
      have h2 : (idleSidsOf st name).erase s = idleSidsOf st name :=
        List.erase_of_not_mem (fun hc => (hD name).2.2.1 s hs hc)
      have hpos : 0 < (activeOf st name).length := List.length_pos.mpr
        (fun hc => by rw [hc] at hs; cases hs)
      rw [h2]
      omega
    · have h1 := List.length_erase_of_mem hs
      have h2 : (activeOf st name).erase s = activeOf st name :=
        List.erase_of_not_mem (fun hc => (hD name).2.2.1 s hc hs)
      have hpos : 0 < (idleSidsOf st name).length := List.length_pos.mpr
        (fun hc => by rw [hc] at hs; cases hs)
      rw [h2]
      omega
  have hB2 : BudgetInv (removeFromIdleSockets (removeFromSockets st s name) s name) := by
    intro n
    rw [show (removeFromIdleSockets (removeFromSockets st s name) s name).maxSockets
      = st.maxSockets from rfl]
    by_cases hn : n = name
    · rw [hn]; omega
    · rw [rmPair_active_other st s name n hn, rmPair_idleSids_other st s name n hn]
      exact hB n
  cases hq : st.requests name with
  | none =>
    rw [removeSocket_no_waiters st s name now (by simp [queueOf, hq])]
    exact hB2
  | some l =>
    cases l with
    | nil =>
      rw [removeSocket_no_waiters st s name now (by simp [queueOf, hq])]
      exact hB2
    | cons r rest =>
      rw [removeSocket_waiters st s name now r rest hq]
      have hlt2 : (activeOf (removeFromIdleSockets (removeFromSockets st s name) s name) name).length
          < (removeFromIdleSockets (removeFromSockets st s name) s name).maxSockets := by
        rw [show (removeFromIdleSockets (removeFromSockets st s name) s name).maxSockets
          = st.maxSockets from rfl]
        omega
      have hBf := foc_Budget _ name now hB2 hlt2
      have hDf := foc_InvD _ name now hD2
      have hmem : (findOrCreateSocket (removeFromIdleSockets (removeFromSockets st s name) s name) name now).2
          ∈ activeOf (findOrCreateSocket (removeFromIdleSockets (removeFromSockets st s name) s name) name now).1 name := by
        rw [foc_active]
        exact List.mem_append.mpr (Or.inr (List.mem_singleton.mpr rfl))
      exact onFree_Budget _ name _ now hDf hBf hmem

/-- `addRequest` keeps every key within the capacity budget. -/
theorem addRequest_Budget (st : AgentState) (req : Nat) (name : String) (now : Nat)
    (hB : BudgetInv st) : BudgetInv (addRequest st req name now) := by
  have hB0 : BudgetInv ({ st with sockets := ensureKey st.sockets name }) := by
    intro n
    by_cases hn : n = name
    · rw [hn]
      have ha : activeOf ({ st with sockets := ensureKey st.sockets name }) name
          = activeOf st name := getL_ensureKey st.sockets name
      rw [ha]
      exact hB name
    · have ha : activeOf ({ st with sockets := ensureKey st.sockets name }) n
          = activeOf st n := congrArg getL (ensureKey_other st.sockets name n hn)
      rw [ha]
      exact hB n
  by_cases hc : (activeOf st name).length < st.maxSockets
  · rw [addRequest_assign st req name now hc]
    have hlt0 : (activeOf ({ st with sockets := ensureKey st.sockets name }) name).length
        < ({ st with sockets := ensureKey st.sockets name } : AgentState).maxSockets := by
      have ha : activeOf ({ st with sockets := ensureKey st.sockets name }) name
          = activeOf st name := getL_ensureKey st.sockets name
      rw [ha]
      exact hc
    exact fun n => foc_Budget _ name now hB0 hlt0 n
  · rw [addRequest_queue st req name now hc]
    exact fun n => hB0 n

/-- A key's expiry sweep keeps every key within the capacity budget. -/
theorem sweepKey_Budget (st : AgentState) (name : String) (now : Nat)
    (hB : BudgetInv st) : BudgetInv (sweepKey st name now) := by
  intro n
  rw [show (sweepKey st name now).maxSockets = st.maxSockets from rfl]
  by_cases hn : n = name
  · rw [hn]
    have hi : idleSidsOf (sweepKey st name now) name
        = ((idleOf st name).dropWhile (isExpired now)).map Prod.fst := by
      unfold idleSidsOf idleOf sweepKey
      rw [validateIdle_idleSockets, getL_vIdleMap]
    have hlen : (idleSidsOf (sweepKey st name now) name).length ≤ (idleSidsOf st name).length := by
      rw [hi]
      exact ((List.dropWhile_sublist _).map Prod.fst).length_le
    have hkey := hB name
    have ha : activeOf (sweepKey st name now) name = activeOf st name := rfl
    rw [ha]
    omega
  · have ha : activeOf (sweepKey st name now) n = activeOf st n := rfl
    have hi : idleSidsOf (sweepKey st name now) n = idleSidsOf st n := by
      unfold idleSidsOf idleOf sweepKey
      rw [validateIdle_idleSockets, vIdleMap_other st.idleSockets name n now hn]
    rw [ha, hi]
    exact hB n

/-- Every tracked-socket event preserves both invariants. -/
theorem cstep_Inv {st st' : AgentState} (h : CStep st st') (hI : InvD st) (hB : BudgetInv st) :
    InvD st' ∧ BudgetInv st' := by
  cases h with
  | add req name now hfresh =>
    exact ⟨addRequest_InvD st req name now hI, addRequest_Budget st req name now hB⟩
  | freed s name now hact hcl hrm =>
    exact ⟨onFree_InvD st name s now hI hact, onFree_Budget st name s now hI hB hact⟩
  | closed s name now hnm hlt htr hcl hrm =>
    exact ⟨fun n => removeSocket_InvD st s name now hI n,
           fun n => removeSocket_Budget st s name now hI hB htr n⟩
  | evicted s name now hnm hlt htr hrm =>
    exact ⟨fun n => removeSocket_InvD st s name now hI n,
           fun n => removeSocket_Budget st s name now hI hB htr n⟩
  | sweep name now hp =>
    exact ⟨sweepKey_InvD st name now hI, sweepKey_Budget st name now hB⟩
  | destroy s hlt => exact ⟨hI, hB⟩

theorem init_Budget (mx ka : Nat) : BudgetInv (initAgent mx ka) := by
  intro name
  show (getL (none : Option (List Nat))).length + _ ≤ _
  simp [idleSidsOf, idleOf, initAgent]

theorem creachable_Inv {st st' : AgentState} (h : CReachable st st')
    (hI : InvD st) (hB : BudgetInv st) : InvD st' ∧ BudgetInv st' := by
  induction h with
  | refl => exact ⟨hI, hB⟩
  | tail _ hstep ih => exact cstep_Inv hstep ih.1 ih.2

/-! ### Queue and assignment-log discipline

Every event changes the wait queues and the assignment log in one of four
ways: not at all; a push of a never-seen request at the tail of one queue;
an assignment of a never-seen request (the under-capacity `addRequest`
path); or a shift of one queue's head into the log (the free handler's
assign path).  This is the entire FIFO discipline of the pool. -/

def QL (st st' : AgentState) : Prop :=
  (st'.requests = st.requests ∧ st'.assignLog = st.assignLog) ∨
  (∃ name r, ReqFresh st r ∧ st'.assignLog = st.assignLog ∧
      st'.requests = upd st.requests name (some (queueOf st name ++ [r]))) ∨
  (∃ r s, ReqFresh st r ∧ st'.requests = st.requests ∧
      st'.assignLog = st.assignLog ++ [(r, s)]) ∨
  (∃ name r rest s, st.requests name = some (r :: rest) ∧
      st'.requests = upd st.requests name (if rest.isEmpty then none else some rest) ∧
      st'.assignLog = st.assignLog ++ [(r, s)])

theorem onFree_QL (st : AgentState) (name : String) (s now : Nat) :
    QL st (onFreeEvent st name s now) := by
  cases hdes : st.destroyed s with
  | true =>
    rw [onFree_park st name s now (Or.inl hdes)]
    exact Or.inl ⟨rfl, rfl⟩
  | false =>
    cases hq : st.requests name with
    | none =>
      rw [onFree_park st name s now (Or.inr (by simp [queueOf, hq]))]
      exact Or.inl ⟨rfl, rfl⟩
    | some l =>
      cases l with
      | nil =>
        rw [onFree_park st name s now (Or.inr (by simp [queueOf, hq]))]
        exact Or.inl ⟨rfl, rfl⟩
      | cons r rest =>
        rw [onFree_assign st name s now r rest hdes hq]
        exact Or.inr (Or.inr (Or.inr ⟨name, r, rest, s, hq, rfl, rfl⟩))

theorem removeSocket_QL (st : AgentState) (s : Nat) (name : String) (now : Nat) :
    QL st (removeSocket st s name now) := by
  cases hq : st.requests name with
  | none =>
    rw [removeSocket_no_waiters st s name now (by simp [queueOf, hq])]
    exact Or.inl ⟨rfl, rfl⟩
  | some l =>
    cases l with
    | nil =>
      rw [removeSocket_no_waiters st s name now (by simp [queueOf, hq])]
      exact Or.inl ⟨rfl, rfl⟩
    | cons r rest =>
      rw [removeSocket_waiters st s name now r rest hq]
      have hreq3 : (findOrCreateSocket (removeFromIdleSockets (removeFromSockets st s name) s name) name now).1.requests
          = st.requests := by
        rw [foc_requests]
        rfl
      have hlog3 : (findOrCreateSocket (removeFromIdleSockets (removeFromSockets st s name) s name) name now).1.assignLog
          = st.assignLog := by
        rw [foc_assignLog]
        rfl
      have hq3 : (findOrCreateSocket (removeFromIdleSockets (removeFromSockets st s name) s name) name now).1.requests name
          = some (r :: rest) := by rw [hreq3]; exact hq
      cases hdes : (findOrCreateSocket (removeFromIdleSockets (removeFromSockets st s name) s name) name now).1.destroyed
          (findOrCreateSocket (removeFromIdleSockets (removeFromSockets st s name) s name) name now).2 with
      | true =>
        rw [onFree_park _ name _ now (Or.inl hdes)]
        exact Or.inl ⟨hreq3, hlog3⟩
      | false =>
        rw [onFree_assign _ name _ now r rest hdes hq3]
        refine Or.inr (Or.inr (Or.inr ⟨name, r, rest,
          (findOrCreateSocket (removeFromIdleSockets (removeFromSockets st s name) s name) name now).2,
          hq, ?_, ?_⟩))
        · show upd _ name _ = _
          rw [hreq3]
        · show _ ++ _ = _
          rw [hlog3]

theorem addRequest_QL (st : AgentState) (req : Nat) (name : String) (now : Nat)
    (hfresh : ReqFresh st req) : QL st (addRequest st req name now) := by
  by_cases hc : (activeOf st name).length < st.maxSockets
  · rw [addRequest_assign st req name now hc]
    refine Or.inr (Or.inr (Or.inl ⟨req,
      (findOrCreateSocket { st with sockets := ensureKey st.sockets name } name now).2,
      hfresh, ?_, ?_⟩))
    · show (findOrCreateSocket _ name now).1.requests = st.requests
      rw [foc_requests]
    · show (findOrCreateSocket _ name now).1.assignLog ++ _ = _
      rw [foc_assignLog]
  · rw [addRequest_queue st req name now hc]
    refine Or.inr (Or.inl ⟨name, req, hfresh, rfl, ?_⟩)
    show pushVal st.requests name req = _
    rfl

/-- Every event's queue/log effect is one of the four `QL` shapes. -/
theorem step_QL {st st' : AgentState} (h : Step st st') : QL st st' := by
  cases h with
  | add req name now hfresh => exact addRequest_QL st req name now hfresh
  | freed s name now hact hcl hrm => exact onFree_QL st name s now
  | closed s name now hnm hlt hcl hrm =>
    have h0 := removeSocket_QL st s name now
    unfold QL at h0 ⊢
    exact h0
  | evicted s name now hnm hlt hrm =>
    have h0 := removeSocket_QL st s name now
    unfold QL at h0 ⊢
    exact h0
  | sweep name now hp => exact Or.inl ⟨rfl, rfl⟩
  | destroy s hlt => exact Or.inl ⟨rfl, rfl⟩

/-- Index of the first occurrence of a request id in a list. -/
def firstIdx (r : Nat) : List Nat → Nat
  | [] => 0
  | x :: xs => if x = r then 0 else firstIdx r xs + 1

theorem firstIdx_append_left (r : Nat) (l t : List Nat) (h : r ∈ l) :
    firstIdx r (l ++ t) = firstIdx r l := by
  induction l with
  | nil => cases h
  | cons x xs ih =>
    by_cases hx : x = r
    · simp [firstIdx, hx]
    · have hr : r ∈ xs := by
        rcases List.mem_cons.mp h with h1 | h1
        · exact absurd h1.symm hx
        · exact h1
      simp [firstIdx, hx, ih hr]

theorem firstIdx_lt_length (r : Nat) (l : List Nat) (h : r ∈ l) :
    firstIdx r l < l.length := by
  induction l with
  | nil => cases h
  | cons x xs ih =>
    by_cases hx : x = r
    · simp [firstIdx, hx]
    · have hr : r ∈ xs := by
        rcases List.mem_cons.mp h with h1 | h1
        · exact absurd h1.symm hx
        · exact h1
      simp only [firstIdx, hx, if_false, List.length_cons]
      exact Nat.succ_lt_succ (ih hr)

theorem firstIdx_append_self (r : Nat) (l : List Nat) (h : r ∉ l) :
    firstIdx r (l ++ [r]) = l.length := by
  induction l with
  | nil => simp [firstIdx]
  | cons x xs ih =>
    have hx : x ≠ r := fun hc => h (by rw [hc]; exact List.mem_cons_self r xs)
    have hr : r ∉ xs := fun hc => h (List.mem_cons_of_mem x hc)
    simp [firstIdx, hx, ih hr]

theorem getL_shiftQueue (l : List Nat) :
    getL (if l.isEmpty then none else (some l : Option (List Nat))) = l := by
  cases l <;> simp

/-! ### Request uniqueness along any run -/

/-- Well-formedness of the queues and the log: each queue is duplicate-free,
a request waits under at most one name, waiting requests have not been
assigned, and no request is assigned twice. -/
def WInv (st : AgentState) : Prop :=
  (∀ n, (queueOf st n).Nodup) ∧
  (∀ n1 n2 r, r ∈ queueOf st n1 → r ∈ queueOf st n2 → n1 = n2) ∧
  (∀ n r, r ∈ queueOf st n → r ∉ logF st) ∧
  (logF st).Nodup

theorem ql_WInv {st st' : AgentState} (h : QL st st') (hW : WInv st) : WInv st' := by
  obtain ⟨hW1, hW2, hW3, hW4⟩ := hW
  rcases h with ⟨hreq, hlog⟩ | ⟨name, r, hfresh, hlog, hreq⟩ |
    ⟨r, s, hfresh, hreq, hlog⟩ | ⟨name, r, rest, s, hq, hreq, hlog⟩
  · have hqe : ∀ n, queueOf st' n = queueOf st n := fun n =>
      congrArg getL (congrFun hreq n)
    have hle : logF st' = logF st := congrArg (List.map Prod.fst) hlog
    refine ⟨fun n => hqe n ▸ hW1 n, ?_, ?_, hle ▸ hW4⟩
    · intro n1 n2 x h1 h2
      exact hW2 n1 n2 x (hqe n1 ▸ h1) (hqe n2 ▸ h2)
    · intro n x h1
      rw [hle]
      exact hW3 n x (hqe n ▸ h1)
  · -- push of a fresh request at the tail of one queue
    have hqe : ∀ n, queueOf st' n
        = if n = name then queueOf st name ++ [r] else queueOf st n := by
      intro n
      by_cases hn : n = name
      · rw [hn]
        unfold queueOf
        rw [hreq]
        simp [queueOf]
      · unfold queueOf
        rw [hreq]
        simp [hn]
    have hle : logF st' = logF st := congrArg (List.map Prod.fst) hlog
    refine ⟨?_, ?_, ?_, hle ▸ hW4⟩
    · intro n
      rw [hqe n]
      by_cases hn : n = name
      · simp only [hn, if_pos rfl]
        exact nodup_append_singleton (hW1 name) (hfresh.2 name)
      · simp only [hn, if_neg hn]
        exact hW1 n
    · intro n1 n2 x h1 h2
      rw [hqe n1] at h1
      rw [hqe n2] at h2
      by_cases hn1 : n1 = name <;> by_cases hn2 : n2 = name
      · rw [hn1, hn2]
      · rw [if_pos hn1] at h1
        rw [if_neg hn2] at h2
        rcases List.mem_append.mp h1 with h1a | h1e
        · exact hW2 n1 n2 x (hn1 ▸ h1a) h2
        · rw [List.mem_singleton.mp h1e] at h2
          exact absurd h2 (hfresh.2 n2)
      · rw [if_neg hn1] at h1
        rw [if_pos hn2] at h2
        rcases List.mem_append.mp h2 with h2a | h2e
        · exact hW2 n1 n2 x h1 (hn2 ▸ h2a)
        · rw [List.mem_singleton.mp h2e] at h1
          exact absurd h1 (hfresh.2 n1)
      · rw [if_neg hn1] at h1
        rw [if_neg hn2] at h2
        exact hW2 n1 n2 x h1 h2
    · intro n x h1
      rw [hle]
      rw [hqe n] at h1
      by_cases hn : n = name
      · rw [if_pos hn] at h1
        rcases List.mem_append.mp h1 with h1a | h1e
        · exact hW3 name x h1a
        · rw [List.mem_singleton.mp h1e]
          exact hfresh.1
      · rw [if_neg hn] at h1
        exact hW3 n x h1
  · -- a fresh request assigned synchronously
    have hqe : ∀ n, queueOf st' n = queueOf st n := fun n =>
      congrArg getL (congrFun hreq n)
    have hle : logF st' = logF st ++ [r] := by
      unfold logF
      rw [hlog]
      simp
    refine ⟨fun n => hqe n ▸ hW1 n, ?_, ?_, ?_⟩
    · intro n1 n2 x h1 h2
      exact hW2 n1 n2 x (hqe n1 ▸ h1) (hqe n2 ▸ h2)
    · intro n x h1
      rw [hle]
      rw [hqe n] at h1
      intro hc
      rcases List.mem_append.mp hc with hcl | hce
      · exact hW3 n x h1 hcl
      · rw [List.mem_singleton.mp hce] at h1
        exact hfresh.2 n h1
    · rw [hle]
      exact nodup_append_singleton hW4 hfresh.1
  · -- shift of a queue head into the log
    have hqname : queueOf st name = r :: rest := by
      unfold queueOf
      rw [hq]
      rfl
    have hrq : r ∈ queueOf st name := by rw [hqname]; exact List.mem_cons_self r rest
    have hrrest : r ∉ rest := by
      have := hW1 name
      rw [hqname, List.nodup_cons] at this
      exact this.1
    have hqe : ∀ n, queueOf st' n = if n = name then rest else queueOf st n := by
      intro n
      by_cases hn : n = name
      · rw [hn]
        unfold queueOf
        rw [hreq]
        simp only [upd_same]
        exact getL_shiftQueue rest
      · unfold queueOf
        rw [hreq]
        simp [hn]
    have hle : logF st' = logF st ++ [r] := by
      unfold logF
      rw [hlog]
      simp
    have hsubq : ∀ n x, x ∈ queueOf st' n → x ∈ queueOf st n := by
      intro n x hx
      rw [hqe n] at hx
      by_cases hn : n = name
      · rw [if_pos hn] at hx
        rw [hn, hqname]
        exact List.mem_cons_of_mem r hx
      · rw [if_neg hn] at hx
        exact hx
    refine ⟨?_, ?_, ?_, ?_⟩
    · intro n
      rw [hqe n]
      by_cases hn : n = name
      · rw [if_pos hn]
        have := hW1 name
        rw [hqname, List.nodup_cons] at this
        exact this.2
      · rw [if_neg hn]
        exact hW1 n
    · intro n1 n2 x h1 h2
      exact hW2 n1 n2 x (hsubq n1 x h1) (hsubq n2 x h2)
    · intro n x h1
      rw [hle]
      intro hc
      rcases List.mem_append.mp hc with hcl | hce
      · exact hW3 n x (hsubq n x h1) hcl
      · rw [List.mem_singleton.mp hce] at h1
        rw [hqe n] at h1
        by_cases hn : n = name
        · rw [if_pos hn] at h1
          exact hrrest h1
        · rw [if_neg hn] at h1
          exact hn (hW2 n name r h1 hrq)
    · rw [hle]
      exact nodup_append_singleton hW4 (hW3 name r hrq)

theorem reachable_WInv {st st' : AgentState} (h : Reachable st st') (hW : WInv st) :
    WInv st' := by
  induction h with
  | refl => exact hW
  | tail _ hstep ih => exact ql_WInv (step_QL hstep) ih

theorem init_WInv (mx ka : Nat) : WInv (initAgent mx ka) := by
  refine ⟨?_, ?_, ?_, ?_⟩
  · intro n; exact List.nodup_nil
  · intro n1 n2 r h1 _; cases h1
  · intro n r h1; cases h1
  · exact List.nodup_nil

/-! ### The FIFO ordering invariant for two queued requests -/

/-- Relative progress of two requests `R1` queued ahead of `R2` under one
name: either both still wait in order and neither is assigned, or `R1` has
been assigned and `R2` not yet, or both are assigned and `R1`'s first log
position is strictly earlier. -/
def FifoInv (name : String) (R1 R2 : Nat) (st : AgentState) : Prop :=
  (List.Sublist [R1, R2] (queueOf st name) ∧ R1 ∉ logF st ∧ R2 ∉ logF st) ∨
  (R1 ∈ logF st ∧ R2 ∉ logF st) ∨
  (R1 ∈ logF st ∧ R2 ∈ logF st ∧ firstIdx R1 (logF st) < firstIdx R2 (logF st))

theorem ql_Fifo {st st' : AgentState} (name : String) (R1 R2 : Nat) (h12 : R1 ≠ R2)
    (hW : WInv st) (h : QL st st') (hF : FifoInv name R1 R2 st) :
    FifoInv name R1 R2 st' := by
  obtain ⟨hW1, hW2, hW3, hW4⟩ := hW
  rcases h with ⟨hreq, hlog⟩ | ⟨name0, r, hfresh, hlog, hreq⟩ |
    ⟨r, s, hfresh, hreq, hlog⟩ | ⟨name0, r, rest, s, hq, hreq, hlog⟩
  · have hqe : queueOf st' name = queueOf st name := congrArg getL (congrFun hreq name)
    have hle : logF st' = logF st := congrArg (List.map Prod.fst) hlog
    rw [FifoInv, hqe, hle]
    exact hF
  · -- push of a fresh request
    have hle : logF st' = logF st := congrArg (List.map Prod.fst) hlog
    have hqe : queueOf st' name
        = if name = name0 then queueOf st name0 ++ [r] else queueOf st name := by
      by_cases hn : name = name0
      · rw [if_pos hn, hn]
        unfold queueOf
        rw [hreq]
        simp [queueOf]
      · rw [if_neg hn]
        unfold queueOf
        rw [hreq]
        simp [hn]
    rw [FifoInv, hle, hqe]
    rcases hF with ⟨hsub, h1, h2⟩ | hF | hF
    · left
      refine ⟨?_, h1, h2⟩
      by_cases hn : name = name0
      · rw [if_pos hn]
        rw [hn] at hsub
        exact hsub.trans (List.sublist_append_left _ _)
      · rw [if_neg hn]
        exact hsub
    · exact Or.inr (Or.inl hF)
    · exact Or.inr (Or.inr hF)
  · -- synchronous assignment of a fresh request
    have hqe : queueOf st' name = queueOf st name := congrArg getL (congrFun hreq name)
    have hle : logF st' = logF st ++ [r] := by
      unfold logF
      rw [hlog]
      simp
    rw [FifoInv, hqe, hle]
    rcases hF with ⟨hsub, h1, h2⟩ | ⟨h1, h2⟩ | ⟨h1, h2, h3⟩
    · left
      have hr1 : R1 ∈ queueOf st name := hsub.subset (List.mem_cons_self _ _)
      have hr2 : R2 ∈ queueOf st name := hsub.subset (by simp)
      have hne1 : r ≠ R1 := fun hc => hfresh.2 name (hc ▸ hr1)
      have hne2 : r ≠ R2 := fun hc => hfresh.2 name (hc ▸ hr2)
      refine ⟨hsub, ?_, ?_⟩
      · intro hc
        rcases List.mem_append.mp hc with hcl | hce
        · exact h1 hcl
        · exact hne1 (List.mem_singleton.mp hce).symm
      · intro hc
        rcases List.mem_append.mp hc with hcl | hce
        · exact h2 hcl
        · exact hne2 (List.mem_singleton.mp hce).symm
    · by_cases hr2 : r = R2
      · right; right
        refine ⟨List.mem_append.mpr (Or.inl h1), ?_, ?_⟩
        · rw [hr2]; exact List.mem_append.mpr (Or.inr (List.mem_singleton.mpr rfl))
        · rw [firstIdx_append_left R1 _ _ h1, hr2, firstIdx_append_self R2 _ h2]
          exact firstIdx_lt_length R1 _ h1
      · right; left
        refine ⟨List.mem_append.mpr (Or.inl h1), ?_⟩
        intro hc
        rcases List.mem_append.mp hc with hcl | hce
        · exact h2 hcl
        · exact hr2 (List.mem_singleton.mp hce).symm
    · right; right
      refine ⟨List.mem_append.mpr (Or.inl h1), List.mem_append.mpr (Or.inl h2), ?_⟩
      rw [firstIdx_append_left R1 _ _ h1, firstIdx_append_left R2 _ _ h2]
      exact h3
  · -- shift of a queue head into the log
    have hqname0 : queueOf st name0 = r :: rest := by
      unfold queueOf
      rw [hq]
      rfl
    have hrq : r ∈ queueOf st name0 := by rw [hqname0]; exact List.mem_cons_self r rest
    have hrrest : r ∉ rest := by
      have := hW1 name0
      rw [hqname0, List.nodup_cons] at this
      exact this.1
    have hle : logF st' = logF st ++ [r] := by
      unfold logF
      rw [hlog]
      simp
    have hqe : queueOf st' name = if name = name0 then rest else queueOf st name := by
      by_cases hn : name = name0
      · rw [if_pos hn, hn]
        unfold queueOf
        rw [hreq]
        simp only [upd_same]
        exact getL_shiftQueue rest
      · rw [if_neg hn]
        unfold queueOf
        rw [hreq]
        simp [hn]
    rw [FifoInv, hqe, hle]
    rcases hF with ⟨hsub, h1, h2⟩ | ⟨h1, h2⟩ | ⟨h1, h2, h3⟩
    · by_cases hn : name = name0
      · rw [hn] at hsub
        rw [hqname0] at hsub
        by_cases hr1 : r = R1
        · -- the head shifted into the log is R1
          right; left
          refine ⟨?_, ?_⟩
          · rw [hr1]
            exact List.mem_append.mpr (Or.inr (List.mem_singleton.mpr rfl))
          · intro hc
            rcases List.mem_append.mp hc with hcl | hce
            · exact h2 hcl
            · exact h12 (hr1.symm.trans (List.mem_singleton.mp hce).symm)
        · -- the head is neither request: both stay queued, in order
          left
          have hsub' : List.Sublist [R1, R2] rest := by
            cases hsub with
            | cons _ h' => exact h'
            | cons₂ _ h' => exact absurd rfl hr1
          have hr2 : r ≠ R2 := by
            intro hc
            exact hrrest (hc ▸ hsub'.subset (by simp))
          rw [if_pos hn]
          refine ⟨hsub', ?_, ?_⟩
          · intro hc
            rcases List.mem_append.mp hc with hcl | hce
            · exact h1 hcl
            · exact hr1 (List.mem_singleton.mp hce).symm
          · intro hc
            rcases List.mem_append.mp hc with hcl | hce
            · exact h2 hcl
            · exact hr2 (List.mem_singleton.mp hce).symm
      · -- a different endpoint's head was shifted
        left
        rw [if_neg hn]
        have hr1 : R1 ∈ queueOf st name := hsub.subset (List.mem_cons_self _ _)
        have hr2 : R2 ∈ queueOf st name := hsub.subset (by simp)
        have hne1 : r ≠ R1 := fun hc => hn (hW2 name name0 R1 hr1 (hc ▸ hrq))
        have hne2 : r ≠ R2 := fun hc => hn (hW2 name name0 R2 hr2 (hc ▸ hrq))
        refine ⟨hsub, ?_, ?_⟩
        · intro hc
          rcases List.mem_append.mp hc with hcl | hce
          · exact h1 hcl
          · exact hne1 (List.mem_singleton.mp hce).symm
        · intro hc
          rcases List.mem_append.mp hc with hcl | hce
          · exact h2 hcl
          · exact hne2 (List.mem_singleton.mp hce).symm
    · by_cases hr2 : r = R2
      · right; right
        refine ⟨List.mem_append.mpr (Or.inl h1), ?_, ?_⟩
        · rw [hr2]; exact List.mem_append.mpr (Or.inr (List.mem_singleton.mpr rfl))
        · rw [firstIdx_append_left R1 _ _ h1, hr2, firstIdx_append_self R2 _ h2]
          exact firstIdx_lt_length R1 _ h1
      · right; left
        refine ⟨List.mem_append.mpr (Or.inl h1), ?_⟩
        intro hc
        rcases List.mem_append.mp hc with hcl | hce
        · exact h2 hcl
        · exact hr2 (List.mem_singleton.mp hce).symm
    · right; right
      refine ⟨List.mem_append.mpr (Or.inl h1), List.mem_append.mpr (Or.inl h2), ?_⟩
      rw [firstIdx_append_left R1 _ _ h1, firstIdx_append_left R2 _ _ h2]
      exact h3

theorem reachable_W_Fifo {st st' : AgentState} (h : Reachable st st') (name : String)
    (R1 R2 : Nat) (h12 : R1 ≠ R2) (hW : WInv st) (hF : FifoInv name R1 R2 st) :
    WInv st' ∧ FifoInv name R1 R2 st' := by
  induction h with
  | refl => exact ⟨hW, hF⟩
  | tail _ hstep ih =>
    exact ⟨ql_WInv (step_QL hstep) ih.1, ql_Fifo name R1 R2 h12 ih.1 (step_QL hstep) ih.2⟩

/-! ### The expiry reaper: `setupValidator` and its periodic tick

`putIdleSocket` calls `setupValidator`, which schedules a single timeout
unless one is already pending (`"validationTimer" in this`).  The timer
callback deletes the pending-timer mark, runs `validateIdle` for every
present `idleSockets` key while summing the returned booleans with `+=`
(JavaScript coerces `true`/`false` to `1`/`0`), and calls `setupValidator`
again only when the sum is positive.  The map is modelled as an association
list so the `for name in self.idleSockets` loop is a fold over its keys. -/

abbrev IdleMap := List (String × List (Nat × Nat))

/-- One loop iteration of the timer callback: `validateIdle(name)` applied
to one key of the accumulated map, plus `socketsLeft += validateIdle(name)`. -/
def validateStep (now : Nat) (acc : IdleMap × Nat) (kv : String × List (Nat × Nat)) :
    IdleMap × Nat :=
  let rest := kv.2.dropWhile (isExpired now)
  let m' :=
    if 0 < (kv.2.takeWhile (isExpired now)).length then
      (if rest.isEmpty then acc.1 else acc.1 ++ [(kv.1, rest)])
    else acc.1 ++ [(kv.1, kv.2)]
  (m', acc.2 + (if rest.isEmpty then 0 else 1))

/-- The whole sweep of one timer callback: the surviving idle map and the
final `socketsLeft`. -/
def tickSweep (m : IdleMap) (now : Nat) : IdleMap × Nat :=
  m.foldl (validateStep now) ([], 0)

/-- The reaper-facing state: the idle map and whether a `validationTimer`
is pending. -/
structure ReaperState where
  idleMap : IdleMap
  validTimer : Bool

/-- `Agent.prototype.setupValidator`: a no-op when a timer is already
pending, otherwise schedules one. -/
def setupValidator (r : ReaperState) : ReaperState :=
  if r.validTimer then r else { r with validTimer := true }

/-- The timer callback: clear the pending mark (`delete
self.validationTimer`), sweep every key, and reschedule only when
`socketsLeft > 0`. -/
def timerTick (r : ReaperState) (now : Nat) : ReaperState :=
  let sw := tickSweep r.idleMap now
  let r2 : ReaperState := { idleMap := sw.1, validTimer := false }
  if 0 < sw.2 then setupValidator r2 else r2

/-- Append an entry to one key of an association-list map, creating the key
at the end when absent (object key order is insertion order). -/
def mapPush (m : IdleMap) (k : String) (e : Nat × Nat) : IdleMap :=
  match m with
  | [] => [(k, [e])]
  | kv :: t => if kv.1 = k then (k, kv.2 ++ [e]) :: t else kv :: mapPush t k e

/-- `putIdleSocket` as seen by the reaper: park an entry, then
`setupValidator`. -/
def putIdleSocketR (r : ReaperState) (k : String) (s now ka : Nat) : ReaperState :=
  setupValidator { r with idleMap := mapPush r.idleMap k (s, now + ka) }

/-- Total number of idle entries across all endpoints. -/
def totalIdle (m : IdleMap) : Nat := (m.map (fun kv => kv.2.length)).sum

theorem tickSweep_foldl_snd (now : Nat) (m : IdleMap) (acc : IdleMap × Nat) :
    (m.foldl (validateStep now) acc).2
      = acc.2 + m.countP (fun kv => !(kv.2.dropWhile (isExpired now)).isEmpty) := by
  induction m generalizing acc with
  | nil => simp
  | cons kv t ih =>
    rw [List.foldl_cons, ih]
    simp only [List.countP_cons, validateStep]
    by_cases he : (kv.2.dropWhile (isExpired now)).isEmpty <;> simp [he] <;> omega

/-- `socketsLeft` counts the keys with remaining idle entries, not the
remaining idle entries themselves. -/
theorem tickSweep_snd (m : IdleMap) (now : Nat) :
    (tickSweep m now).2 = m.countP (fun kv => !(kv.2.dropWhile (isExpired now)).isEmpty) := by
  unfold tickSweep
  rw [tickSweep_foldl_snd]
  simp

theorem tickSweep_foldl_fst (now : Nat) (m : IdleMap) (acc : IdleMap × Nat) :
    totalIdle (m.foldl (validateStep now) acc).1
      = totalIdle acc.1 + (m.map (fun kv => (kv.2.dropWhile (isExpired now)).length)).sum := by
  induction m generalizing acc with
  | nil => simp
  | cons kv t ih =>
    rw [List.foldl_cons, ih]
    simp only [validateStep]
    by_cases hc : 0 < (kv.2.takeWhile (isExpired now)).length
    · by_cases he : (kv.2.dropWhile (isExpired now)).isEmpty
      · simp [hc, he, List.isEmpty_iff.mp he]
      · simp [hc, he, totalIdle]
        omega
    · have ht : kv.2.takeWhile (isExpired now) = [] := by
        cases hq : kv.2.takeWhile (isExpired now) with
        | nil => rfl
        | cons a u => rw [hq] at hc; simp at hc
      have hd : kv.2.dropWhile (isExpired now) = kv.2 :=
        dropWhile_eq_self_of_takeWhile_nil ht
      simp [hc, totalIdle, hd]
      omega

theorem tickSweep_total (m : IdleMap) (now : Nat) :
    totalIdle (tickSweep m now).1
      = (m.map (fun kv => (kv.2.dropWhile (isExpired now)).length)).sum := by
  unfold tickSweep
  rw [tickSweep_foldl_fst]
  simp [totalIdle]

/-- `socketsLeft` is zero exactly when no idle entries remain anywhere. -/
theorem tickSweep_zero_iff (m : IdleMap) (now : Nat) :
    (tickSweep m now).2 = 0 ↔ totalIdle (tickSweep m now).1 = 0 := by
  rw [tickSweep_snd, tickSweep_total, List.countP_eq_zero, List.sum_eq_zero_iff]
  constructor
  · intro h x hx
    rcases List.mem_map.mp hx with ⟨kv, hkv, hx⟩
    have := h kv hkv
    simp only [Bool.not_eq_true', Bool.not_not] at this
    rw [← hx]
    simpa [List.isEmpty_iff] using this
  · intro h kv hkv
    have := h ((kv.2.dropWhile (isExpired now)).length)
      (List.mem_map.mpr ⟨kv, hkv, rfl⟩)
    simp [List.isEmpty_iff, List.length_eq_zero.mp this]

/-- For an idle list whose expiries are non-decreasing (the insertion-order
invariant: constant keep-alive, monotone clock), the prefix scan of
`validateIdle` splices exactly the expired entries and the remainder is
exactly the non-expired ones. -/
theorem expired_split_sorted (now : Nat) (l : List (Nat × Nat))
    (hs : l.Pairwise (fun a b => a.2 ≤ b.2)) :
    l.takeWhile (isExpired now) = l.filter (isExpired now) ∧
    l.dropWhile (isExpired now) = l.filter (fun e => !isExpired now e) := by
  induction l with
  | nil => simp
  | cons a t ih =>
    rw [List.pairwise_cons] at hs
    obtain ⟨ha, ht⟩ := hs
    obtain ⟨ih1, ih2⟩ := ih ht
    by_cases hx : isExpired now a
    · simp [List.takeWhile_cons, List.dropWhile_cons, List.filter_cons, hx, ih1, ih2]
    · have hall : ∀ e ∈ t, ¬ isExpired now e = true := by
        intro e he hc
        apply hx
        have h2 := ha e he
        unfold isExpired at hc ⊢
        simp only [decide_eq_true_eq] at hc ⊢
        omega
      have hf1 : t.filter (isExpired now) = [] := List.filter_eq_nil_iff.mpr hall
      have hf2 : t.filter (fun e => !isExpired now e) = t := by
        rw [List.filter_eq_self]
        intro e he
        simp [hall e he]
      simp [List.takeWhile_cons, List.dropWhile_cons, List.filter_cons, hx, hf1, hf2]

/-! ### Helpers for concrete traces -/

theorem reqFresh_empty {st : AgentState} (r : Nat)
    (hrep : st.requests = fun _ => none) (hl : r ∉ logF st) : ReqFresh st r := by
  refine ⟨hl, fun n => ?_⟩
  unfold queueOf
  rw [hrep]
  simp

theorem reqFresh_via_upd {st : AgentState} (r : Nat) (k : String) (q0 : Option (List Nat))
    (hrep : st.requests = upd (fun _ => none) k q0)
    (hl : r ∉ logF st) (hk : r ∉ getL q0) : ReqFresh st r := by
  refine ⟨hl, fun n => ?_⟩
  unfold queueOf
  rw [hrep]
  by_cases hn : n = k
  · rw [hn, upd_same]; exact hk
  · rw [upd_other _ _ _ _ hn]; simp

/-! ### C9 -/

/-- C9: in every state reachable by any sequence of pool events from a fresh
Agent, no connection appears simultaneously in the active set
`sockets[name]` and the idle list `idleSockets[name]` of an endpoint key:
parking detaches from the active set first, and idle reuse pops the idle
entry before pushing the socket back into the active set. -/
theorem c9_active_idle_disjoint (mx ka : Nat) (st : AgentState)
    (h : Reachable (initAgent mx ka) st) (name : String) (s : Nat)
    (hs : s ∈ activeOf st name) : s ∉ idleSidsOf st name :=
  ((reachable_InvD h (init_InvD mx ka)) name).2.2.1 s hs

def c9W0 : AgentState := mkAgent (some 5) (some 10)
def c9W1 : AgentState := addRequest c9W0 901 "h:80" 0

theorem c9_witness : (0 ∈ activeOf c9W1 "h:80") ∧ (0 ∉ idleSidsOf c9W1 "h:80") :=
  ⟨by decide,
   c9_active_idle_disjoint 5 10 c9W1
     (Relation.ReflTransGen.single
       (Step.add c9W0 901 "h:80" 0 (reqFresh_empty 901 rfl (by decide))))
     "h:80" 0 (by decide)⟩

/-! ### C1 -/

def c1S : AgentState := mkAgent (some 1) (some 10)
def c1A : AgentState := addRequest c1S 101 "h:80" 0
def c1B : AgentState := onFreeEvent c1A "h:80" 0 0
def c1C : AgentState := sweepKey c1B "h:80" 11
def c1D : AgentState := addRequest c1C 102 "h:80" 11
def c1E : AgentState := addRequest c1D 103 "h:80" 11
def c1F : AgentState := closeEvent c1E 0 "h:80" 11

/-- C1 counterexample: with `maxSockets = 1`, socket 0 serves a request,
is parked idle, expires and is destroyed by the sweep; socket 1 then serves
a new request and another request queues.  When socket 0's asynchronous
`close` event finally reaches the Agent (it is no longer tracked),
`removeSocket` sees the queued request and creates socket 2 with no
capacity check: the active set becomes `[1, 2]`, exceeding `maxSockets`.
Every event in the trace is a legitimate `Step`. -/
theorem c1_capacity_cex :
    Reachable c1S c1F ∧ c1F.maxSockets = 1 ∧ activeOf c1F "h:80" = [1, 2] := by
  refine ⟨?_, by decide, by decide⟩
  have h1 : Step c1S c1A :=
    Step.add c1S 101 "h:80" 0 (reqFresh_empty 101 rfl (by decide))
  have h2 : Step c1A c1B :=
    Step.freed c1A 0 "h:80" 0 (by decide) (by decide) (by decide)
  have h3 : Step c1B c1C :=
    Step.sweep c1B "h:80" 11 (by decide)
  have h4 : Step c1C c1D :=
    Step.add c1C 102 "h:80" 11 (reqFresh_empty 102 rfl (by decide))
  have h5 : Step c1D c1E :=
    Step.add c1D 103 "h:80" 11 (reqFresh_empty 103 rfl (by decide))
  have h6 : Step c1E c1F :=
    Step.closed c1E 0 "h:80" 11 (by decide) (by decide) (by decide) (by decide)
  exact (((((Relation.ReflTransGen.refl.tail h1).tail h2).tail h3).tail h4).tail h5).tail h6

/-- C1 (amended): for every endpoint key, the active-connection count never
exceeds `maxSockets` in every state reachable by `addRequest` calls, freed
events on active sockets, sweep ticks, destroys, and closed/evicted events
restricted to connections the pool still tracks.  Without that restriction
the claim fails: a stale `close` from a connection the expiry sweep already
retired triggers an unchecked replenishment (see the counterexample). -/
theorem c1_capacity_amended (mx ka : Nat) (st : AgentState)
    (h : CReachable (initAgent mx ka) st) (name : String) :
    (activeOf st name).length ≤ st.maxSockets := by
  obtain ⟨_, hB⟩ := creachable_Inv h (init_InvD mx ka) (init_Budget mx ka)
  have := hB name
  omega

def c1W0 : AgentState := mkAgent (some 1) (some 10)
def c1W1 : AgentState := addRequest c1W0 111 "h:80" 0
def c1W2 : AgentState := addRequest c1W1 112 "h:80" 0
def c1W3 : AgentState := onFreeEvent c1W2 "h:80" 0 0

theorem c1_capacity_amended_witness :
    (activeOf c1W3 "h:80").length ≤ c1W3.maxSockets :=
  c1_capacity_amended 1 10 c1W3
    (((Relation.ReflTransGen.refl.tail
        (CStep.add c1W0 111 "h:80" 0 (reqFresh_empty 111 rfl (by decide)))).tail
        (CStep.add c1W1 112 "h:80" 0 (reqFresh_empty 112 rfl (by decide)))).tail
        (CStep.freed c1W2 0 "h:80" 0 (by decide) (by decide) (by decide)))
    "h:80"

/-! ### C2 -/

/-- C2: queued requests for one endpoint are served strictly FIFO.  If, in a
reachable state, request `R1` stands ahead of `R2` in the wait queue of a
key (`[R1, R2]` is a sublist of the queue), then in every later state in
which `R2` has been assigned a connection, `R1` was assigned one first: `R1`
is in the assignment log at a strictly earlier first position.  The free
handler only ever shifts the queue head, and `addRequest` only appends. -/
theorem c2_fifo (mx ka : Nat) (st0 st1 : AgentState) (name : String) (R1 R2 : Nat)
    (h0 : Reachable (initAgent mx ka) st0)
    (h1 : Reachable st0 st1)
    (hq : List.Sublist [R1, R2] (queueOf st0 name))
    (hR2 : R2 ∈ logF st1) :
    R1 ∈ logF st1 ∧ firstIdx R1 (logF st1) < firstIdx R2 (logF st1) := by
  have hW0 : WInv st0 := reachable_WInv h0 (init_WInv mx ka)
  have h12 : R1 ≠ R2 := by
    have hnd : ([R1, R2] : List Nat).Nodup := (hW0.1 name).sublist hq
    rw [List.nodup_cons] at hnd
    exact fun hc => hnd.1 (hc ▸ List.mem_cons_self _ _)
  have hF0 : FifoInv name R1 R2 st0 := Or.inl ⟨hq,
    hW0.2.2.1 name R1 (hq.subset (List.mem_cons_self _ _)),
    hW0.2.2.1 name R2 (hq.subset (by simp))⟩
  have hF1 := (reachable_W_Fifo h1 name R1 R2 h12 hW0 hF0).2
  rcases hF1 with ⟨_, _, hc⟩ | ⟨_, hc⟩ | ⟨hm, _, hlt⟩
  · exact absurd hR2 hc
  · exact absurd hR2 hc
  · exact ⟨hm, hlt⟩

def c2I : AgentState := mkAgent (some 1) (some 10)
def c2A : AgentState := addRequest c2I 201 "h:80" 0
def c2B : AgentState := addRequest c2A 202 "h:80" 0
def c2C : AgentState := addRequest c2B 203 "h:80" 0
def c2D : AgentState := onFreeEvent c2C "h:80" 0 0
def c2E : AgentState := onFreeEvent c2D "h:80" 0 0

theorem c2_fifo_witness :
    202 ∈ logF c2E ∧ firstIdx 202 (logF c2E) < firstIdx 203 (logF c2E) :=
  c2_fifo 1 10 c2C c2E "h:80" 202 203
    (((Relation.ReflTransGen.refl.tail
        (Step.add c2I 201 "h:80" 0 (reqFresh_empty 201 rfl (by decide)))).tail
        (Step.add c2A 202 "h:80" 0 (reqFresh_empty 202 rfl (by decide)))).tail
        (Step.add c2B 203 "h:80" 0
          (reqFresh_via_upd 203 "h:80" (some [202]) rfl (by decide) (by decide))))
    ((Relation.ReflTransGen.refl.tail
        (Step.freed c2C 0 "h:80" 0 (by decide) (by decide) (by decide))).tail
        (Step.freed c2D 0 "h:80" 0 (by decide) (by decide) (by decide)))
    (by
      have h : queueOf c2C "h:80" = [202, 203] := by decide
      rw [h])
    (by decide)

/-! ### C3 -/

def c3S : AgentState := mkAgent (some 2) (some 100)
def c3A : AgentState := addRequest c3S 211 "h:80" 0
def c3B : AgentState := addRequest c3A 212 "h:80" 0
def c3C : AgentState := addRequest c3B 213 "h:80" 0
def c3D : AgentState := destroySock c3C 0
def c3E : AgentState := onFreeEvent c3D "h:80" 0 0
def c3F : AgentState := closeEvent c3E 1 "h:80" 0

/-- C3 counterexample: the head request is not always assigned.  With
`maxSockets = 2`, sockets 0 and 1 serve requests and request 213 queues;
socket 0 is destroyed and then fires `free`, so the handler parks the dead
socket 0 idle.  When the tracked active socket 1 closes, `removeSocket`
obtains a connection for head request 213 via `findOrCreateSocket` and
emits `free` on it — but the obtained connection is the dead idle socket 0,
so the synthesized free event re-parks it instead of assigning it: 213
stays queued, unassigned, and no connection is created. -/
theorem c3_replenish_cex :
    Reachable c3S c3F ∧
    queueOf c3E "h:80" = [213] ∧ (1 ∈ activeOf c3E "h:80") ∧
    queueOf c3F "h:80" = [213] ∧ (213 ∉ logF c3F) ∧ c3F.nextSid = 2 := by
  refine ⟨?_, by decide, by decide, by decide, by decide, by decide⟩
  have h1 : Step c3S c3A :=
    Step.add c3S 211 "h:80" 0 (reqFresh_empty 211 rfl (by decide))
  have h2 : Step c3A c3B :=
    Step.add c3A 212 "h:80" 0 (reqFresh_empty 212 rfl (by decide))
  have h3 : Step c3B c3C :=
    Step.add c3B 213 "h:80" 0 (reqFresh_empty 213 rfl (by decide))
  have h4 : Step c3C c3D := Step.destroy c3C 0 (by decide)
  have h5 : Step c3D c3E :=
    Step.freed c3D 0 "h:80" 0 (by decide) (by decide) (by decide)
  have h6 : Step c3E c3F :=
    Step.closed c3E 1 "h:80" 0 (by decide) (by decide) (by decide) (by decide)
  exact (((((Relation.ReflTransGen.refl.tail h1).tail h2).tail h3).tail h4).tail h5).tail h6

def c3V0 : AgentState := mkAgent (some 1) (some 100)
def c3V1 : AgentState := addRequest c3V0 301 "h:80" 0
def c3V2 : AgentState := addRequest c3V1 302 "h:80" 0
def c3V3 : AgentState := closeEvent c3V2 0 "h:80" 0

/-- C3 (amended): when a connection is removed via a closed event and the
endpoint's wait queue is non-empty, the Agent obtains a connection for the
head request via `findOrCreateSocket` and synthesizes a freed notification
for it; *provided the obtained connection is not destroyed* (idle reuse can
yield a dead parked connection, which is re-parked instead — see the
counterexample), the head request is assigned that connection with no
further trigger.  In particular, with `maxSockets = 1`, one active
connection and one queued request, closing the active connection creates a
fresh connection (id 1) and assigns it to the queued request. -/
theorem c3_replenish_amended :
    (∀ (st : AgentState) (s : Nat) (name : String) (now r : Nat) (rest : List Nat),
      st.requests name = some (r :: rest) →
      (findOrCreateSocket (removeFromIdleSockets (removeFromSockets st s name) s name) name now).1.destroyed
        (findOrCreateSocket (removeFromIdleSockets (removeFromSockets st s name) s name) name now).2 = false →
      removeSocket st s name now =
        onFreeEvent
          (findOrCreateSocket (removeFromIdleSockets (removeFromSockets st s name) s name) name now).1
          name
          (findOrCreateSocket (removeFromIdleSockets (removeFromSockets st s name) s name) name now).2
          now ∧
      logF (removeSocket st s name now) = logF st ++ [r] ∧
      queueOf (removeSocket st s name now) name = rest ∧
      (findOrCreateSocket (removeFromIdleSockets (removeFromSockets st s name) s name) name now).2
        ∈ activeOf (removeSocket st s name now) name) ∧
    (Reachable c3V0 c3V3 ∧ activeOf c3V3 "h:80" = [1] ∧
     c3V3.assignLog = [(301, 0), (302, 1)] ∧ queueOf c3V3 "h:80" = [] ∧ c3V3.nextSid = 2) := by
  constructor
  · intro st s name now r rest hq hnd
    have heq := removeSocket_waiters st s name now r rest hq
    have hq3 : (findOrCreateSocket (removeFromIdleSockets (removeFromSockets st s name) s name) name now).1.requests name
        = some (r :: rest) := by
      rw [foc_requests]
      show st.requests name = _
      exact hq
    have hassign := onFree_assign
      (findOrCreateSocket (removeFromIdleSockets (removeFromSockets st s name) s name) name now).1
      name
      (findOrCreateSocket (removeFromIdleSockets (removeFromSockets st s name) s name) name now).2
      now r rest hnd hq3
    refine ⟨heq, ?_, ?_, ?_⟩
    · rw [heq, hassign]
      show ((findOrCreateSocket (removeFromIdleSockets (removeFromSockets st s name) s name) name now).1.assignLog
        ++ [(r, (findOrCreateSocket (removeFromIdleSockets (removeFromSockets st s name) s name) name now).2)]).map Prod.fst
        = logF st ++ [r]
      rw [foc_assignLog]
      show (st.assignLog ++ _).map Prod.fst = _
      simp [logF]
    · rw [heq, hassign]
      show getL (upd (findOrCreateSocket (removeFromIdleSockets (removeFromSockets st s name) s name) name now).1.requests
        name (if rest.isEmpty then none else some rest) name) = rest
      rw [upd_same]
      exact getL_shiftQueue rest
    · rw [heq, hassign]
      show (findOrCreateSocket (removeFromIdleSockets (removeFromSockets st s name) s name) name now).2
        ∈ activeOf (findOrCreateSocket (removeFromIdleSockets (removeFromSockets st s name) s name) name now).1 name
      rw [foc_active]
      exact List.mem_append.mpr (Or.inr (List.mem_singleton.mpr rfl))
  · refine ⟨?_, by decide, by decide, by decide, by decide⟩
    have h1 : Step c3V0 c3V1 :=
      Step.add c3V0 301 "h:80" 0 (reqFresh_empty 301 rfl (by decide))
    have h2 : Step c3V1 c3V2 :=
      Step.add c3V1 302 "h:80" 0 (reqFresh_empty 302 rfl (by decide))
    have h3 : Step c3V2 c3V3 :=
      Step.closed c3V2 0 "h:80" 0 (by decide) (by decide) (by decide) (by decide)
    exact ((Relation.ReflTransGen.refl.tail h1).tail h2).tail h3

theorem c3_replenish_amended_witness :
    logF (removeSocket c3V2 0 "h:80" 0) = logF c3V2 ++ [302] ∧
    queueOf (removeSocket c3V2 0 "h:80" 0) "h:80" = [] := by
  have h := c3_replenish_amended.1 c3V2 0 "h:80" 0 302 [] (by decide) (by decide)
  exact ⟨h.2.1, h.2.2.1⟩

/-! ### C4 -/

/-- C4: `findOrCreateSocket` prefers idle reuse over creation.  If the key
holds a valid (non-expired) idle entry, the returned socket comes from the
idle list (it is popped — the remaining idle list is the validated tail —
and re-added to the active set), and no new connection is created:
`nextSid` is unchanged. -/
theorem c4_idle_reuse (st : AgentState) (name : String) (now : Nat) (l : List (Nat × Nat))
    (e : Nat × Nat) (hm : st.idleSockets name = some l) (he : e ∈ l) (hv : now ≤ e.2) :
    (findOrCreateSocket st name now).2 ∈ idleSidsOf st name ∧
    (findOrCreateSocket st name now).1.nextSid = st.nextSid ∧
    activeOf (findOrCreateSocket st name now).1 name
      = activeOf st name ++ [(findOrCreateSocket st name now).2] ∧
    idleOf (findOrCreateSocket st name now).1 name
      = ((idleOf st name).dropWhile (isExpired now)).tail := by
  have hne : ¬ ((getL (st.idleSockets name)).dropWhile (isExpired now) = []) := by
    rw [hm]
    simp only [getL_some]
    intro hc
    have hall := (dropWhile_isEmpty_iff (isExpired now) l).mp (by rw [hc]; rfl)
    have h2 := hall e he
    unfold isExpired at h2
    simp only [decide_eq_true_eq] at h2
    omega
  cases hs : fisSid st.idleSockets name now with
  | none => exact absurd ((fisSid_none_iff _ _ _).mp hs) hne
  | some sid =>
    have h2 := foc_nextSid_some st name now sid hs
    rcases foc_cases st name now with ⟨hmem, _, _⟩ | ⟨_, hns2, _⟩
    · exact ⟨hmem, h2, foc_active st name now, foc_idle st name now⟩
    · rw [h2] at hns2
      omega

def c4W : AgentState :=
  onFreeEvent (addRequest (mkAgent (some 1) (some 10)) 401 "h:80" 0) "h:80" 0 0

theorem c4_idle_reuse_witness :
    (findOrCreateSocket c4W "h:80" 5).2 ∈ idleSidsOf c4W "h:80" ∧
    (findOrCreateSocket c4W "h:80" 5).1.nextSid = c4W.nextSid :=
  ⟨(c4_idle_reuse c4W "h:80" 5 [(0, 10)] (0, 10) (by decide) (by decide) (by decide)).1,
   (c4_idle_reuse c4W "h:80" 5 [(0, 10)] (0, 10) (by decide) (by decide) (by decide)).2.1⟩

/-! ### C5 -/

def c5M : IdleMap := [("h:80", [(0, 100), (1, 100)])]
def c5W : AgentState :=
  putIdleSocket (putIdleSocket (mkAgent (some 5) (some 10)) 0 "h:80" 90) 1 "h:80" 90

/-- C5 counterexample: `validateIdle` does not return the number of idle
entries remaining for the key.  For a key holding two unexpired idle
entries it returns the boolean `true` (the JS `sockets.length > 0`), which
the reaper tick's `socketsLeft += validateIdle(name)` coerces to `1`: the
tick's sum is the number of keys with remaining entries (here 1), not the
total remaining idle count (here 2). -/
theorem c5_validate_cex :
    (validateIdle c5W "h:80" 5).2 = true ∧
    (tickSweep c5M 5).2 = 1 ∧
    totalIdle (tickSweep c5M 5).1 = 2 ∧
    (tickSweep c5M 5).2 ≠ totalIdle (tickSweep c5M 5).1 := by
  refine ⟨by decide, by decide, by decide, by decide⟩

/-- C5 (amended): `validateIdle(name)` returns a boolean — whether any idle
entries remain for the key after the expired prefix is removed — and each
reaper tick sums these booleans under numeric coercion, so `socketsLeft` is
the number of keys with remaining idle entries; that count is zero exactly
when the total number of remaining idle entries across all endpoints is
zero, which is all the rescheduling decision observes. -/
theorem c5_validate_amended :
    (∀ (st : AgentState) (name : String) (now : Nat) (l : List (Nat × Nat)),
      st.idleSockets name = some l →
      (validateIdle st name now).2 = !((l.dropWhile (isExpired now)).isEmpty)) ∧
    (∀ (m : IdleMap) (now : Nat),
      (tickSweep m now).2 = m.countP (fun kv => !(kv.2.dropWhile (isExpired now)).isEmpty)) ∧
    (∀ (m : IdleMap) (now : Nat),
      ((tickSweep m now).2 = 0 ↔ totalIdle (tickSweep m now).1 = 0)) := by
  refine ⟨?_, tickSweep_snd, tickSweep_zero_iff⟩
  intro st name now l hm
  rw [validateIdle_snd, hm]
  rfl

theorem c5_validate_amended_witness :
    (validateIdle c5W "h:80" 5).2
      = !((([(0, 100), (1, 100)] : List (Nat × Nat)).dropWhile (isExpired 5)).isEmpty) :=
  c5_validate_amended.1 c5W "h:80" 5 [(0, 100), (1, 100)] (by decide)

/-! ### C6 -/

/-- C6: `putIdleSocket` records an idle entry with
`validTill = now + keepAlive`; the sweep's expired prefix contains only
entries with `validTill < now` (so no idle connection is ever destroyed
before its `validTill`); and when the list's expiries are non-decreasing —
which insertion order guarantees with a constant keep-alive and a monotone
clock — the sweep destroys exactly the expired entries and leaves the later
ones untouched, in order. -/
theorem c6_expiry (st : AgentState) (s : Nat) (name : String) (now : Nat)
    (l : List (Nat × Nat)) (hm : st.idleSockets name = some l)
    (hs : l.Pairwise (fun a b => a.2 ≤ b.2)) :
    idleOf (putIdleSocket st s name now) name = idleOf st name ++ [(s, now + st.keepAlive)] ∧
    (∀ e ∈ l.takeWhile (isExpired now), e.2 < now) ∧
    l.takeWhile (isExpired now) = l.filter (isExpired now) ∧
    idleOf (sweepKey st name now) name = l.filter (fun e => !isExpired now e) ∧
    (∀ x, (sweepKey st name now).destroyed x = true →
      st.destroyed x = true ∨ x ∈ (l.takeWhile (isExpired now)).map Prod.fst) := by
  obtain ⟨hsp1, hsp2⟩ := expired_split_sorted now l hs
  refine ⟨?_, ?_, hsp1, ?_, ?_⟩
  · unfold idleOf
    rw [putIdleSocket_idleSockets, getL_pushVal]
  · intro e hee
    have h2 := List.mem_takeWhile_imp hee
    unfold isExpired at h2
    simpa using h2
  · unfold idleOf sweepKey
    rw [validateIdle_idleSockets, getL_vIdleMap, hm]
    simp only [getL_some]
    exact hsp2
  · intro x hx
    unfold sweepKey at hx
    rw [show (validateIdle st name now).1.destroyed
      = vIdleKill st.idleSockets st.destroyed name now from rfl] at hx
    have h3 := vIdleKill_elim st.idleSockets st.destroyed name now x hx
    rw [hm] at h3
    simpa using h3

def c6W : AgentState :=
  putIdleSocket (putIdleSocket (mkAgent (some 5) (some 10)) 0 "h:80" 0) 1 "h:80" 10

theorem c6_expiry_witness :
    idleOf (sweepKey c6W "h:80" 15) "h:80"
      = ([(0, 10), (1, 20)] : List (Nat × Nat)).filter (fun e => !isExpired 15 e) :=
  (c6_expiry c6W 0 "h:80" 15 [(0, 10), (1, 20)] (by decide) (by decide)).2.2.2.1

/-! ### C7 -/

/-- C7: reaper self-termination and lazy restart.  If a tick's sweep leaves
zero idle connections across all endpoints, the timer is not rescheduled;
`putIdleSocket` (via `setupValidator`) always leaves a timer pending; and
`setupValidator` is a no-op when a timer is already pending, so at most one
timer is pending per Agent. -/
theorem c7_reaper :
    (∀ (r : ReaperState) (now : Nat),
      totalIdle (tickSweep r.idleMap now).1 = 0 → (timerTick r now).validTimer = false) ∧
    (∀ (r : ReaperState) (k : String) (s now ka : Nat),
      (putIdleSocketR r k s now ka).validTimer = true) ∧
    (∀ r : ReaperState, r.validTimer = true → setupValidator r = r) := by
  refine ⟨?_, ?_, ?_⟩
  · intro r now h0
    have hz : (tickSweep r.idleMap now).2 = 0 := (tickSweep_zero_iff _ _).mpr h0
    unfold timerTick
    simp only [hz]
    simp
  · intro r k s now ka
    by_cases h : r.validTimer <;> simp [putIdleSocketR, setupValidator, h]
  · intro r h
    simp [setupValidator, h]

def c7R : ReaperState := { idleMap := [("h:80", [(0, 10)])], validTimer := true }

theorem c7_reaper_witness :
    (timerTick c7R 20).validTimer = false ∧
    (putIdleSocketR c7R "h:80" 1 0 10).validTimer = true ∧
    setupValidator c7R = c7R :=
  ⟨c7_reaper.1 c7R 20 (by decide),
   c7_reaper.2.1 c7R "h:80" 1 0 10,
   c7_reaper.2.2 c7R rfl⟩

/-! ### C8 -/

/-- C8: the liveness check in the free handler only gates the
queue-has-waiters branch.  Whenever the endpoint has no waiting requests,
the freed connection — destroyed or not (the state `st` is arbitrary, in
particular its `destroyed` flag for `s`) — is removed from the active set
and parked in the idle pool with the fresh expiry `now + keepAlive`. -/
theorem c8_dead_park (st : AgentState) (name : String) (s now : Nat)
    (h : queueOf st name = []) :
    onFreeEvent st name s now = putIdleSocket (removeFromSockets st s name) s name now ∧
    activeOf (onFreeEvent st name s now) name = (activeOf st name).erase s ∧
    idleOf (onFreeEvent st name s now) name = idleOf st name ++ [(s, now + st.keepAlive)] := by
  have heq := onFree_park st name s now (Or.inr h)
  refine ⟨heq, ?_, ?_⟩
  · rw [heq]
    exact park_active st s name now
  · rw [heq]
    unfold idleOf
    rw [putIdleSocket_idleSockets, getL_pushVal]
    rfl

def c8W : AgentState := destroySock (addRequest (mkAgent (some 5) (some 10)) 801 "h:80" 0) 0

theorem c8_dead_park_witness :
    c8W.destroyed 0 = true ∧
    idleOf (onFreeEvent c8W "h:80" 0 7) "h:80" = idleOf c8W "h:80" ++ [(0, 7 + c8W.keepAlive)] :=
  ⟨by decide, (c8_dead_park c8W "h:80" 0 7 (by decide)).2.2⟩

/-! ### C10 -/

/-- C10: `findIdleSocket`'s `shift` of the last remaining idle entry leaves
the key behind bound to an empty array (the storage entry is not released);
only `validateIdle` (when its splice empties the array) and
`removeFromIdleSockets` (when erasing the last entry) delete a key whose
idle list becomes empty. -/
theorem c10_idle_key (st : AgentState) (name : String) (now : Nat)
    (l : List (Nat × Nat)) (e : Nat × Nat) (s : Nat)
    (hm : st.idleSockets name = some l) :
    (l.dropWhile (isExpired now) = [e] →
      (findIdleSocket st name now).1.idleSockets name = some [] ∧
      (findIdleSocket st name now).2 = some e.1) ∧
    (l ≠ [] → l.dropWhile (isExpired now) = [] →
      (validateIdle st name now).1.idleSockets name = none) ∧
    (l.any (fun x => x.1 == s) = true → l.eraseP (fun x => x.1 == s) = [] →
      (removeFromIdleSockets st s name).idleSockets name = none) := by
  refine ⟨?_, ?_, ?_⟩
  · intro hd
    constructor
    · rw [findIdleSocket_idleSockets]
      exact fisIdleMap_present st.idleSockets name now l e [] hm hd
    · rw [findIdleSocket_snd, fisSid_eq, hm]
      simp [hd]
  · intro hl hd
    rw [validateIdle_idleSockets]
    have htw : l.takeWhile (isExpired now) = l := by
      have h2 := List.takeWhile_append_dropWhile (isExpired now) l
      rw [hd] at h2
      simpa using h2
    have hlen : 0 < l.length := List.length_pos.mpr hl
    simp only [vIdleMap, hm, htw, hd]
    simp [hlen]
  · intro hany herase
    show rmIdle st.idleSockets s name name = none
    simp only [rmIdle, hm, hany, herase]
    simp

def c10W : AgentState := putIdleSocket (mkAgent (some 5) (some 10)) 0 "h:80" 90

theorem c10_idle_key_witness :
    ((findIdleSocket c10W "h:80" 5).1.idleSockets "h:80" = some [] ∧
     (findIdleSocket c10W "h:80" 5).2 = some 0) ∧
    (validateIdle c10W "h:80" 200).1.idleSockets "h:80" = none ∧
    (removeFromIdleSockets c10W 0 "h:80").idleSockets "h:80" = none :=
  ⟨(c10_idle_key c10W "h:80" 5 [(0, 100)] (0, 100) 0 (by decide)).1 (by decide),
   (c10_idle_key c10W "h:80" 200 [(0, 100)] (0, 100) 0 (by decide)).2.1 (by decide) (by decide),
   (c10_idle_key c10W "h:80" 5 [(0, 100)] (0, 100) 0 (by decide)).2.2 (by decide) (by decide)⟩
